import Mathlib

/-!
# Verification of the rs-keymap-parser entry codec

A shallow embedding of the Rust crate `rs-keymap-parser` (REAPER keymap
codec).  Rust string slices are modelled as `List Char`; the Unicode
`char::is_whitespace` predicate, `str::split_whitespace`, `str::split`,
`str::splitn`, `str::trim` and integer parsing are embedded as executable
functions below, and the data model (`Modifiers`, `SpecialInput`,
`ReaperActionSection`, `Comment`, `KeyEntry`, `ScriptEntry`, `ActionEntry`,
`ReaperEntry`, `ReaperActionList`) follows `src/modifiers.rs`,
`src/special_inputs.rs`, `src/sections.rs` and `src/action_list.rs`.
-/

set_option maxHeartbeats 4000000
set_option maxRecDepth 4000

/-- Convenience: the character list of a string literal. -/
def str (s : String) : List Char := s.data

/-! ## Character classification (Rust `char::is_whitespace`: Unicode White_Space) -/

/-- Unicode White_Space, the predicate behind Rust's `char::is_whitespace`,
`str::trim` and `str::split_whitespace`. -/
def isWS (c : Char) : Bool :=
  let n := c.toNat
  (9 ≤ n && n ≤ 13) || n == 32 || n == 133 || n == 160 || n == 5760 ||
    (8192 ≤ n && n ≤ 8202) || n == 8232 || n == 8233 || n == 8239 ||
    n == 8287 || n == 12288

/-! ## String splitting primitives -/

/-- Accumulator worker for `splitWhitespace`; the accumulator holds the
current token reversed. -/
def splitWSAux : List Char → List Char → List (List Char)
  | [], acc => if acc = [] then [] else [acc.reverse]
  | c :: cs, acc =>
    if isWS c then
      (if acc = [] then splitWSAux cs [] else acc.reverse :: splitWSAux cs [])
    else splitWSAux cs (c :: acc)

/-- Rust `str::split_whitespace`: maximal runs of non-whitespace characters. -/
def splitWhitespace (l : List Char) : List (List Char) := splitWSAux l []

/-- Rust `str::split(sep)`: the pieces between occurrences of `sep`
(an empty input yields one empty piece, like Rust). -/
def splitOnChar (sep : Char) : List Char → List (List Char)
  | [] => [[]]
  | c :: cs =>
    if c = sep then [] :: splitOnChar sep cs
    else
      match splitOnChar sep cs with
      | [] => [[c]]
      | h :: t => (c :: h) :: t

/-- Rust `line.splitn(2, '#')`: the part before the first `'#'`, and, when a
`'#'` occurs, everything after it. -/
def splitHash : List Char → List Char × Option (List Char)
  | [] => ([], none)
  | c :: cs =>
    if c = '#' then ([], some cs)
    else
      let r := splitHash cs
      (c :: r.1, r.2)

/-- Rust `str::trim_start`. -/
def trimStart (l : List Char) : List Char := l.dropWhile (fun c => isWS c)

/-- Rust `str::trim_end`. -/
def trimEnd (l : List Char) : List Char := (l.reverse.dropWhile (fun c => isWS c)).reverse

/-- Rust `str::trim`. -/
def trim (l : List Char) : List Char := trimEnd (trimStart l)

/-- Rust `[..].join(sep)`. -/
def joinSep (sep : List Char) : List (List Char) → List Char
  | [] => []
  | [x] => x
  | x :: xs => x ++ sep ++ joinSep sep xs

/-- Rust `str::contains(pat)` for a string pattern: some tail of the
haystack starts with the pattern. -/
def containsStr (hay pat : List Char) : Bool :=
  hay.tails.any (fun t => pat.isPrefixOf t)

/-! ## Lemmas about the splitting primitives -/

/-- A token: nonempty and free of whitespace. -/
def tokenLike (s : List Char) : Prop := s ≠ [] ∧ ∀ c ∈ s, isWS c = false

theorem splitWSAux_nil (acc : List Char) :
    splitWSAux [] acc = if acc = [] then [] else [acc.reverse] := rfl

theorem splitWSAux_ws_cons {c : Char} (h : isWS c = true) (cs acc : List Char) :
    splitWSAux (c :: cs) acc =
      (if acc = [] then [] else [acc.reverse]) ++ splitWSAux cs [] := by
  simp only [splitWSAux, h, if_true]
  by_cases hacc : acc = [] <;> simp [hacc]

theorem splitWSAux_token (t : List Char) (ht : ∀ c ∈ t, isWS c = false) :
    ∀ (cs acc : List Char), splitWSAux (t ++ cs) acc = splitWSAux cs (t.reverse ++ acc) := by
  induction t with
  | nil => intro cs acc; simp
  | cons c t ih =>
    intro cs acc
    have hc : isWS c = false := ht c (List.mem_cons_self c t)
    have ih' := ih (fun x hx => ht x (List.mem_cons_of_mem c hx)) cs (c :: acc)
    simp only [List.cons_append, splitWSAux, hc, Bool.false_eq_true, if_false]
    refine ih'.trans ?_
    have harr : t.reverse ++ c :: acc = (c :: t).reverse ++ acc := by simp
    rw [harr]

theorem splitWhitespace_nil : splitWhitespace [] = [] := rfl

theorem splitWhitespace_ws_cons {c : Char} (h : isWS c = true) (cs : List Char) :
    splitWhitespace (c :: cs) = splitWhitespace cs := by
  simp [splitWhitespace, splitWSAux_ws_cons h]

/-- A whitespace-free nonempty token followed by a whitespace character
begins a new element of `splitWhitespace`. -/
theorem splitWhitespace_token_cons {t : List Char} (ht : tokenLike t)
    {c : Char} (hc : isWS c = true) (rest : List Char) :
    splitWhitespace (t ++ c :: rest) = t :: splitWhitespace rest := by
  obtain ⟨hne, hws⟩ := ht
  simp only [splitWhitespace]
  rw [splitWSAux_token t hws (c :: rest) []]
  rw [splitWSAux_ws_cons hc]
  have : t.reverse ++ [] ≠ [] := by simpa using hne
  simp only [List.append_nil] at this ⊢
  rw [if_neg this]
  simp

/-- A whitespace-free nonempty token alone is a single element. -/
theorem splitWhitespace_token {t : List Char} (ht : tokenLike t) :
    splitWhitespace t = [t] := by
  obtain ⟨hne, hws⟩ := ht
  simp only [splitWhitespace]
  have := splitWSAux_token t hws [] []
  simp only [List.append_nil] at this
  rw [this, splitWSAux_nil]
  have : t.reverse ≠ [] := by simpa using hne
  rw [if_neg this]
  simp

theorem splitOnChar_ne_nil (sep : Char) (l : List Char) : splitOnChar sep l ≠ [] := by
  induction l with
  | nil => simp [splitOnChar]
  | cons c cs ih =>
    simp only [splitOnChar]
    by_cases h : c = sep
    · simp [h]
    · rw [if_neg h]
      cases hr : splitOnChar sep cs with
      | nil => simp
      | cons a t => simp

/-- Splitting a separator-free list yields a single piece. -/
theorem splitOnChar_no_sep {sep : Char} {l : List Char} (h : sep ∉ l) :
    splitOnChar sep l = [l] := by
  induction l with
  | nil => rfl
  | cons c cs ih =>
    have hc : c ≠ sep := fun hh => h (hh ▸ List.mem_cons_self c cs)
    have hcs : sep ∉ cs := fun hh => h (List.mem_cons_of_mem c hh)
    simp only [splitOnChar, if_neg hc, ih hcs]

/-- Splitting past a leading separator-free chunk. -/
theorem splitOnChar_append {sep : Char} {a : List Char} (h : sep ∉ a) (rest : List Char) :
    splitOnChar sep (a ++ sep :: rest) = a :: splitOnChar sep rest := by
  induction a with
  | nil => simp [splitOnChar]
  | cons c cs ih =>
    have hc : c ≠ sep := fun hh => h (hh ▸ List.mem_cons_self c cs)
    have hcs : sep ∉ cs := fun hh => h (List.mem_cons_of_mem c hh)
    simp [splitOnChar, hc, ih hcs]

theorem splitHash_no_hash {l : List Char} (h : '#' ∉ l) : splitHash l = (l, none) := by
  induction l with
  | nil => rfl
  | cons c cs ih =>
    have hc : c ≠ '#' := fun hh => h (hh ▸ List.mem_cons_self c cs)
    have hcs : '#' ∉ cs := fun hh => h (List.mem_cons_of_mem c hh)
    simp [splitHash, hc, ih hcs]

theorem splitHash_append {a : List Char} (h : '#' ∉ a) (rest : List Char) :
    splitHash (a ++ '#' :: rest) = (a, some rest) := by
  induction a with
  | nil => simp [splitHash]
  | cons c cs ih =>
    have hc : c ≠ '#' := fun hh => h (hh ▸ List.mem_cons_self c cs)
    have hcs : '#' ∉ cs := fun hh => h (List.mem_cons_of_mem c hh)
    simp [splitHash, hc, ih hcs]

/-- The data part produced by `splitHash` never contains `'#'`. -/
theorem splitHash_fst_no_hash (l : List Char) : '#' ∉ (splitHash l).1 := by
  induction l with
  | nil => simp [splitHash]
  | cons c cs ih =>
    simp only [splitHash]
    by_cases h : c = '#'
    · simp [h]
    · simp only [if_neg h]
      intro hmem
      rcases List.mem_cons.1 hmem with h1 | h2
      · exact h h1.symm
      · exact ih h2

theorem mem_splitHash_fst {l : List Char} {c : Char} (h : c ∈ (splitHash l).1) : c ∈ l := by
  induction l with
  | nil => simp [splitHash] at h
  | cons a cs ih =>
    simp only [splitHash] at h
    by_cases ha : a = '#'
    · simp [ha] at h
    · simp only [if_neg ha] at h
      rcases List.mem_cons.1 h with h1 | h2
      · exact h1 ▸ List.mem_cons_self a cs
      · exact List.mem_cons_of_mem a (ih h2)

theorem trimStart_cons_of_not_ws {c : Char} (h : isWS c = false) (l : List Char) :
    trimStart (c :: l) = c :: l := by
  simp [trimStart, List.dropWhile_cons, h]

theorem trimEnd_append_singleton_ws {c : Char} (h : isWS c = true) (l : List Char) :
    trimEnd (l ++ [c]) = trimEnd l := by
  simp [trimEnd, List.dropWhile_cons, h]

theorem trimEnd_of_last_not_ws {c : Char} (h : isWS c = false) (l : List Char) :
    trimEnd (l ++ [c]) = l ++ [c] := by
  simp [trimEnd, List.dropWhile_cons, h]

theorem mem_of_mem_dropWhileWS {m : List Char} {c : Char}
    (h : c ∈ m.dropWhile (fun c => isWS c)) : c ∈ m := by
  induction m with
  | nil => simp at h
  | cons a cs ih =>
    by_cases ha : isWS a = true
    · rw [List.dropWhile_cons_of_pos (by simpa using ha)] at h
      exact List.mem_cons_of_mem a (ih h)
    · rwa [List.dropWhile_cons_of_neg (by simpa using ha)] at h

theorem mem_dropWhileWS_of_mem {m : List Char} {c : Char} (hc : isWS c = false)
    (h : c ∈ m) : c ∈ m.dropWhile (fun c => isWS c) := by
  induction m with
  | nil => simp at h
  | cons a cs ih =>
    by_cases ha : isWS a = true
    · rw [List.dropWhile_cons_of_pos (by simpa using ha)]
      rcases List.mem_cons.1 h with h1 | h2
      · rw [h1] at hc; rw [hc] at ha; exact absurd ha (by simp)
      · exact ih h2
    · rwa [List.dropWhile_cons_of_neg (by simpa using ha)]

theorem mem_trimStart {l : List Char} {c : Char} (h : c ∈ trimStart l) : c ∈ l :=
  mem_of_mem_dropWhileWS h

theorem mem_trimEnd {l : List Char} {c : Char} (h : c ∈ trimEnd l) : c ∈ l := by
  simp only [trimEnd, List.mem_reverse] at h
  exact List.mem_reverse.1 (mem_of_mem_dropWhileWS h)

theorem mem_trim {l : List Char} {c : Char} (h : c ∈ trim l) : c ∈ l :=
  mem_trimStart (mem_trimEnd h)

/-- A non-whitespace character survives `trimStart`. -/
theorem mem_trimStart_of_mem {l : List Char} {c : Char} (hc : isWS c = false)
    (h : c ∈ l) : c ∈ trimStart l :=
  mem_dropWhileWS_of_mem hc h

/-- A non-whitespace character survives `trimEnd`. -/
theorem mem_trimEnd_of_mem {l : List Char} {c : Char} (hc : isWS c = false)
    (h : c ∈ l) : c ∈ trimEnd l := by
  simp only [trimEnd, List.mem_reverse]
  exact mem_dropWhileWS_of_mem hc (List.mem_reverse.2 h)

theorem mem_trim_of_mem {l : List Char} {c : Char} (hc : isWS c = false)
    (h : c ∈ l) : c ∈ trim l :=
  mem_trimEnd_of_mem hc (mem_trimStart_of_mem hc h)

/-- Trimming a string that starts and ends with non-whitespace is the identity. -/
theorem trim_eq_self {l : List Char} {a b : List Char} {c d : Char}
    (hl : l = c :: a) (hr : l = b ++ [d]) (hc : isWS c = false) (hd : isWS d = false) :
    trim l = l := by
  have h1 : trimStart l = l := by rw [hl]; exact trimStart_cons_of_not_ws hc a
  have h2 : trimEnd l = l := by rw [hr]; exact trimEnd_of_last_not_ws hd b
  simp [trim, h1, h2]

/-- Every element of `splitWhitespace` is a token. -/
theorem splitWSAux_tokens : ∀ (l acc t : List Char),
    (∀ c ∈ acc, isWS c = false) → t ∈ splitWSAux l acc → t ≠ [] ∧ ∀ c ∈ t, isWS c = false := by
  intro l
  induction l with
  | nil =>
    intro acc t hacc ht
    rw [splitWSAux_nil] at ht
    by_cases h : acc = []
    · simp [h] at ht
    · rw [if_neg h] at ht
      simp only [List.mem_singleton] at ht
      subst ht
      refine ⟨by simpa using h, ?_⟩
      intro c hc
      exact hacc c (List.mem_reverse.1 hc)
  | cons a cs ih =>
    intro acc t hacc ht
    simp only [splitWSAux] at ht
    by_cases ha : isWS a
    · rw [if_pos ha] at ht
      by_cases h : acc = []
      · rw [if_pos h] at ht
        exact ih [] t (by simp) ht
      · rw [if_neg h] at ht
        rcases List.mem_cons.1 ht with h1 | h2
        · subst h1
          refine ⟨by simpa using h, ?_⟩
          intro c hc
          exact hacc c (List.mem_reverse.1 hc)
        · exact ih [] t (by simp) h2
    · rw [if_neg ha] at ht
      refine ih (a :: acc) t ?_ ht
      intro c hc
      rcases List.mem_cons.1 hc with h1 | h2
      · subst h1; simpa using ha
      · exact hacc c h2

theorem splitWhitespace_tokens {l t : List Char} (h : t ∈ splitWhitespace l) : tokenLike t :=
  splitWSAux_tokens l [] t (by simp) h

/-- Characters of `splitWhitespace` tokens come from the input. -/
theorem splitWSAux_chars : ∀ (l acc t : List Char) (c : Char),
    t ∈ splitWSAux l acc → c ∈ t → c ∈ l ∨ c ∈ acc := by
  intro l
  induction l with
  | nil =>
    intro acc t c ht hc
    rw [splitWSAux_nil] at ht
    by_cases h : acc = []
    · simp [h] at ht
    · rw [if_neg h] at ht
      simp only [List.mem_singleton] at ht
      subst ht
      exact Or.inr (List.mem_reverse.1 hc)
  | cons a cs ih =>
    intro acc t c ht hc
    simp only [splitWSAux] at ht
    by_cases ha : isWS a
    · rw [if_pos ha] at ht
      by_cases h : acc = []
      · rw [if_pos h] at ht
        rcases ih [] t c ht hc with h1 | h2
        · exact Or.inl (List.mem_cons_of_mem a h1)
        · simp at h2
      · rw [if_neg h] at ht
        rcases List.mem_cons.1 ht with h1 | h2
        · subst h1
          exact Or.inr (List.mem_reverse.1 hc)
        · rcases ih [] t c h2 hc with h1 | h3
          · exact Or.inl (List.mem_cons_of_mem a h1)
          · simp at h3
    · rw [if_neg ha] at ht
      rcases ih (a :: acc) t c ht hc with h1 | h2
      · exact Or.inl (List.mem_cons_of_mem a h1)
      · rcases List.mem_cons.1 h2 with h3 | h4
        · exact Or.inl (h3 ▸ List.mem_cons_self a cs)
        · exact Or.inr h4

theorem mem_of_mem_splitWhitespace {l t : List Char} {c : Char}
    (ht : t ∈ splitWhitespace l) (hc : c ∈ t) : c ∈ l := by
  rcases splitWSAux_chars l [] t c ht hc with h | h
  · exact h
  · simp at h

/-- `joinSep` of at least two pieces contains the separator's characters. -/
theorem mem_joinSep_sep {sep : List Char} {c : Char} (hc : c ∈ sep) :
    ∀ (x y : List Char) (xs : List (List Char)), c ∈ joinSep sep (x :: y :: xs) := by
  intro x y xs
  simp only [joinSep]
  exact List.mem_append.2 (Or.inl (List.mem_append.2 (Or.inr hc)))

/-- If the separator occurs, the split has at least two pieces. -/
theorem splitOnChar_length_ge_two {sep : Char} {l : List Char} (h : sep ∈ l) :
    2 ≤ (splitOnChar sep l).length := by
  induction l with
  | nil => simp at h
  | cons c cs ih =>
    simp only [splitOnChar]
    by_cases hc : c = sep
    · rw [if_pos hc]
      have := splitOnChar_ne_nil sep cs
      have : 1 ≤ (splitOnChar sep cs).length := by
        cases hcs : splitOnChar sep cs with
        | nil => exact absurd hcs this
        | cons a t => simp
      simpa using this
    · rw [if_neg hc]
      have hcs : sep ∈ cs := by
        rcases List.mem_cons.1 h with h1 | h2
        · exact absurd h1.symm hc
        · exact h2
      have h2 := ih hcs
      cases hr : splitOnChar sep cs with
      | nil => exact absurd hr (splitOnChar_ne_nil sep cs)
      | cons a t =>
        rw [hr] at h2
        simpa using h2

/-! ## Decimal integer printing and parsing

Rust prints `u8`/`u16`/`u32` values in decimal via `Display`, and parses
them with `str::parse::<uN>()` (an optional leading `'+'`, one or more
ASCII digits, overflow rejected). -/

/-- Least-significant-first decimal digits of `n` (`fuel` bounds recursion;
any `fuel` with `n < 10 ^ fuel` is exact). -/
def natDigitsAux : Nat → Nat → List Nat
  | 0, _ => []
  | fuel + 1, n => if n = 0 then [] else n % 10 :: natDigitsAux fuel (n / 10)

/-- The character of the decimal digit `d`. -/
def digitChar (d : Nat) : Char := Char.ofNat (48 + d)

/-- Decimal rendering of a natural number, as Rust `format!` renders an
unsigned integer (20 digits of fuel covers everything below `10 ^ 20`,
far beyond `u32` and `u16`). -/
def natToChars (n : Nat) : List Char :=
  if n = 0 then ['0'] else ((natDigitsAux 20 n).reverse.map digitChar)

/-- Numeric value of a list of decimal digit characters, most significant
first. -/
def digitsVal (s : List Char) : Nat :=
  s.foldl (fun a c => a * 10 + (c.toNat - 48)) 0

/-- Strip one leading `'+'`, as Rust unsigned parsing accepts. -/
def dropPlus : List Char → List Char
  | [] => []
  | c :: r => if c = '+' then r else c :: r

/-- Rust `str::parse::<uN>()` where `bound = 2 ^ N`: optional `'+'`, then
one or more ASCII digits, rejecting overflow. -/
def parseUInt (bound : Nat) (s : List Char) : Option Nat :=
  let t := dropPlus s
  if t = [] then none
  else if t.all Char.isDigit then
    if digitsVal t < bound then some (digitsVal t) else none
  else none

def parseU8 (s : List Char) : Option Nat := parseUInt 256 s
def parseU16 (s : List Char) : Option Nat := parseUInt 65536 s
def parseU32 (s : List Char) : Option Nat := parseUInt 4294967296 s

theorem parseUInt_lt_bound {bound : Nat} {s : List Char} {v : Nat}
    (h : parseUInt bound s = some v) : v < bound := by
  simp only [parseUInt] at h
  split at h
  · exact absurd h (by simp)
  · split at h
    · split at h
      · simp only [Option.some.injEq] at h
        omega
      · exact absurd h (by simp)
    · exact absurd h (by simp)

theorem digitChar_toNat {d : Nat} (h : d < 10) : (digitChar d).toNat = 48 + d := by
  interval_cases d <;> decide

theorem digitChar_isDigit {d : Nat} (h : d < 10) : (digitChar d).isDigit = true := by
  interval_cases d <;> decide

theorem digitChar_ne_plus {d : Nat} (h : d < 10) : digitChar d ≠ '+' := by
  interval_cases d <;> decide

theorem digitChar_not_ws {d : Nat} (h : d < 10) : isWS (digitChar d) = false := by
  interval_cases d <;> decide

theorem digitChar_ne_quote {d : Nat} (h : d < 10) : digitChar d ≠ '"' := by
  interval_cases d <;> decide

theorem digitChar_ne_hash {d : Nat} (h : d < 10) : digitChar d ≠ '#' := by
  interval_cases d <;> decide

theorem natDigitsAux_lt_ten : ∀ (fuel n d : Nat), d ∈ natDigitsAux fuel n → d < 10 := by
  intro fuel
  induction fuel with
  | zero => intro n d h; simp [natDigitsAux] at h
  | succ f ih =>
    intro n d h
    simp only [natDigitsAux] at h
    split at h
    · simp at h
    · rcases List.mem_cons.1 h with h1 | h2
      · subst h1; exact Nat.mod_lt _ (by norm_num)
      · exact ih _ _ h2

theorem natDigitsAux_ofDigits : ∀ (fuel n : Nat), n < 10 ^ fuel →
    Nat.ofDigits 10 (natDigitsAux fuel n) = n := by
  intro fuel
  induction fuel with
  | zero => intro n h; interval_cases n; simp [natDigitsAux]
  | succ f ih =>
    intro n h
    simp only [natDigitsAux]
    split
    · simpa using (by omega : (0 : ℕ) = n)
    · rw [Nat.ofDigits_cons, ih (n / 10) (by
        rw [Nat.div_lt_iff_lt_mul (by norm_num)]
        calc n < 10 ^ (f + 1) := h
        _ = 10 ^ f * 10 := by ring)]
      omega

theorem digitsVal_append_digit (a : List Char) (c : Char) :
    digitsVal (a ++ [c]) = digitsVal a * 10 + (c.toNat - 48) := by
  simp [digitsVal, List.foldl_append]

theorem digitsVal_reverse_map (l : List Nat) (hl : ∀ d ∈ l, d < 10) :
    digitsVal (l.reverse.map digitChar) = Nat.ofDigits 10 l := by
  induction l with
  | nil => simp [digitsVal, Nat.ofDigits]
  | cons d ds ih =>
    have hd : d < 10 := hl d (List.mem_cons_self d ds)
    have hds : ∀ x ∈ ds, x < 10 := fun x hx => hl x (List.mem_cons_of_mem d hx)
    rw [List.reverse_cons, List.map_append]
    simp only [List.map_cons, List.map_nil]
    rw [digitsVal_append_digit, ih hds, Nat.ofDigits_cons, digitChar_toNat hd]
    omega

theorem natToChars_all_digit {n : Nat} : ∀ c ∈ natToChars n, c.isDigit = true := by
  intro c hc
  simp only [natToChars] at hc
  split at hc
  · simp only [List.mem_singleton] at hc; subst hc; decide
  · rcases List.mem_map.1 hc with ⟨d, hd, rfl⟩
    exact digitChar_isDigit (natDigitsAux_lt_ten _ _ _ (List.mem_reverse.1 hd))

theorem natToChars_ne_nil (n : Nat) : natToChars n ≠ [] := by
  simp only [natToChars]
  split
  · simp
  · intro h
    have h20 : (0 : ℕ) < 10 ^ 20 := by norm_num
    rename_i hn
    by_cases hlt : n < 10 ^ 20
    · have := natDigitsAux_ofDigits 20 n hlt
      rw [show natDigitsAux 20 n = [] by
        have := List.map_eq_nil_iff.1 (by exact_mod_cast h)
        simpa using this] at this
      simp [Nat.ofDigits] at this
      omega
    · -- n huge: natDigitsAux 20 n is still nonempty because n ≠ 0
      have : natDigitsAux 20 n = n % 10 :: natDigitsAux 19 (n / 10) := by
        simp [natDigitsAux, hn]
      rw [this] at h
      simp at h

/-- Property bundle for token use: decimal renderings are quote-, hash-,
whitespace-free tokens. -/
theorem natToChars_token (n : Nat) : tokenLike (natToChars n) := by
  refine ⟨natToChars_ne_nil n, ?_⟩
  intro c hc
  simp only [natToChars] at hc
  split at hc
  · simp only [List.mem_singleton] at hc; subst hc; decide
  · rcases List.mem_map.1 hc with ⟨d, hd, rfl⟩
    exact digitChar_not_ws (natDigitsAux_lt_ten _ _ _ (List.mem_reverse.1 hd))

theorem natToChars_no_quote {n : Nat} {c : Char} (hc : c ∈ natToChars n) : c ≠ '"' := by
  have hd := natToChars_all_digit c hc
  intro h; subst h; simp [Char.isDigit] at hd

theorem natToChars_no_hash {n : Nat} {c : Char} (hc : c ∈ natToChars n) : c ≠ '#' := by
  have hd := natToChars_all_digit c hc
  intro h; subst h; simp [Char.isDigit] at hd

/-- Parsing the decimal rendering of `n < bound` recovers `n`. -/
theorem parseUInt_natToChars {bound n : Nat} (hb : bound ≤ 10 ^ 20) (hn : n < bound) :
    parseUInt bound (natToChars n) = some n := by
  have hlt : n < 10 ^ 20 := lt_of_lt_of_le hn hb
  have hval : digitsVal (natToChars n) = n := by
    simp only [natToChars]
    split
    · rename_i h; subst h; decide
    · rw [digitsVal_reverse_map _ (fun d hd => natDigitsAux_lt_ten _ _ _ hd)]
      exact natDigitsAux_ofDigits 20 n hlt
  have hplus : dropPlus (natToChars n) = natToChars n := by
    cases hh : natToChars n with
    | nil => exact absurd hh (natToChars_ne_nil n)
    | cons c cs =>
      have : c.isDigit = true := natToChars_all_digit c (hh ▸ List.mem_cons_self c cs)
      have hne : c ≠ '+' := by intro h; subst h; simp [Char.isDigit] at this
      simp [dropPlus, hne]
  simp only [parseUInt, hplus]
  rw [if_neg (natToChars_ne_nil n)]
  rw [if_pos (by simpa [List.all_eq_true] using fun c hc => natToChars_all_digit c hc)]
  rw [hval, if_pos hn]

theorem parseU8_natToChars {n : Nat} (h : n < 256) : parseU8 (natToChars n) = some n :=
  parseUInt_natToChars (by norm_num) h

theorem parseU16_natToChars {n : Nat} (h : n < 65536) : parseU16 (natToChars n) = some n :=
  parseUInt_natToChars (by norm_num) h

theorem parseU32_natToChars {n : Nat} (h : n < 4294967296) :
    parseU32 (natToChars n) = some n :=
  parseUInt_natToChars (by norm_num) h

/-! ## Modifiers (`src/modifiers.rs`)

The `bitflags!` set with SHIFT = 4, CONTROL = 32, ALT = 16, SUPER = 8 and
SPECIAL_INPUT = 128; the union of all defined bits is 188. -/

/-- The Rust `Modifiers` bitflags value (a `u8` holding only defined bits in
well-formed values). -/
structure Modifiers where
  bits : Nat
deriving DecidableEq, Repr

namespace Modifiers

/-- The union of all defined flag bits (4 + 8 + 16 + 32 + 128). -/
def allBits : Nat := 188

def SHIFT : Modifiers := ⟨4⟩
def CONTROL : Modifiers := ⟨32⟩
def ALT : Modifiers := ⟨16⟩
def SUPER : Modifiers := ⟨8⟩
def SPECIAL_INPUT : Modifiers := ⟨128⟩

/-- `bitflags` `contains`: all bits of the flag are present. -/
def contFlag (m f : Modifiers) : Bool := m.bits &&& f.bits == f.bits

/-- `bitflags` `from_bits`: `Some` exactly when no undefined bit is set. -/
def from_bits (b : Nat) : Option Modifiers :=
  if b &&& allBits == b then some ⟨b⟩ else none

/-- `Modifiers::reaper_code`: 255 for special input, else `1 + (bits & 0x7F)`. -/
def reaper_code (m : Modifiers) : Nat :=
  if contFlag m SPECIAL_INPUT then 255 else 1 + (m.bits &&& 127)

/-- `Modifiers::try_from_reaper_code`: 255 is the special-input sentinel;
otherwise `checked_sub(1)` then `from_bits`. -/
def try_from_reaper_code (n : Nat) : Option Modifiers :=
  if n = 255 then some SPECIAL_INPUT
  else if n = 0 then none
  else from_bits (n - 1)

/-- `Modifiers::is_special_input`. -/
def is_special_input (m : Modifiers) : Bool := contFlag m SPECIAL_INPUT

end Modifiers

/-! ## Special inputs (`src/special_inputs.rs`) -/

/-- `SpecialInput`: the closed set of gesture/media variants used with
modifier code 255, plus the open `MediaKey`/`Unknown` fallbacks. -/
inductive SpecialInput where
  | Mousewheel | CtrlMousewheel | AltMousewheel | CtrlAltMousewheel
  | ShiftMousewheel | CtrlShiftMousewheel | AltShiftMousewheel | CtrlAltShiftMousewheel
  | HorizWheel | AltHorizWheel | CtrlHorizWheel | CtrlAltHorizWheel
  | ShiftHorizWheel | CtrlShiftHorizWheel | AltShiftHorizWheel | CtrlAltShiftHorizWheel
  | MultiZoom | CtrlMultiZoom | AltMultiZoom | CtrlAltShiftMultiZoom
  | MultiRotate | CtrlMultiRotate
  | MultiHorz | MultiVert
  | MediaKey (key : Nat)
  | Unknown (key : Nat)
deriving DecidableEq, Repr

namespace SpecialInput

/-- `SpecialInput::from_key_code`, arm for arm from the Rust `match`
(the literal arms are mutually exclusive; the two `MediaKey` guards and the
fallback come last, in source order). -/
def from_key_code (c : Nat) : SpecialInput :=
  if c = 120 ∨ c = 248 then .Mousewheel
  else if c = 121 ∨ c = 249 then .CtrlMousewheel
  else if c = 122 ∨ c = 250 then .AltMousewheel
  else if c = 123 ∨ c = 251 then .CtrlAltMousewheel
  else if c = 125 ∨ c = 253 then .CtrlShiftMousewheel
  else if c = 252 then .ShiftMousewheel
  else if c = 254 then .AltShiftMousewheel
  else if c = 255 then .CtrlAltShiftMousewheel
  else if c = 88 ∨ c = 216 then .HorizWheel
  else if c = 90 ∨ c = 218 then .AltHorizWheel
  else if c = 217 then .CtrlHorizWheel
  else if c = 219 then .CtrlAltHorizWheel
  else if c = 220 then .ShiftHorizWheel
  else if c = 221 then .CtrlShiftHorizWheel
  else if c = 222 then .AltShiftHorizWheel
  else if c = 223 then .CtrlAltShiftHorizWheel
  else if c = 72 ∨ c = 200 then .MultiZoom
  else if c = 73 ∨ c = 201 then .CtrlMultiZoom
  else if c = 74 ∨ c = 202 then .AltMultiZoom
  else if c = 207 then .CtrlAltShiftMultiZoom
  else if c = 24 ∨ c = 152 then .MultiRotate
  else if c = 25 ∨ c = 153 then .CtrlMultiRotate
  else if c = 40 ∨ c = 168 then .MultiHorz
  else if c = 56 ∨ c = 184 then .MultiVert
  else if 232 ≤ c ∧ (c - 232) % 256 = 0 then .MediaKey c
  else if 488 ≤ c then .MediaKey c
  else .Unknown c

/-- `SpecialInput::to_key_code`. -/
def to_key_code : SpecialInput → Nat
  | .Mousewheel => 248
  | .CtrlMousewheel => 249
  | .AltMousewheel => 250
  | .CtrlAltMousewheel => 251
  | .ShiftMousewheel => 252
  | .CtrlShiftMousewheel => 253
  | .AltShiftMousewheel => 254
  | .CtrlAltShiftMousewheel => 255
  | .HorizWheel => 216
  | .AltHorizWheel => 218
  | .CtrlHorizWheel => 217
  | .CtrlAltHorizWheel => 219
  | .ShiftHorizWheel => 220
  | .CtrlShiftHorizWheel => 221
  | .AltShiftHorizWheel => 222
  | .CtrlAltShiftHorizWheel => 223
  | .MultiZoom => 200
  | .CtrlMultiZoom => 201
  | .AltMultiZoom => 202
  | .CtrlAltShiftMultiZoom => 207
  | .MultiRotate => 152
  | .CtrlMultiRotate => 153
  | .MultiHorz => 168
  | .MultiVert => 184
  | .MediaKey key => key
  | .Unknown key => key

/-- The `fmt::Display` strings of `SpecialInput`. -/
def displayStr : SpecialInput → List Char
  | .Mousewheel => str "Mousewheel"
  | .CtrlMousewheel => str "Ctrl+Mousewheel"
  | .AltMousewheel => str "Alt+Mousewheel"
  | .CtrlAltMousewheel => str "Ctrl+Alt+Mousewheel"
  | .ShiftMousewheel => str "Shift+Mousewheel"
  | .CtrlShiftMousewheel => str "Ctrl+Shift+Mousewheel"
  | .AltShiftMousewheel => str "Alt+Shift+Mousewheel"
  | .CtrlAltShiftMousewheel => str "Ctrl+Alt+Shift+Mousewheel"
  | .HorizWheel => str "HorizWheel"
  | .AltHorizWheel => str "Alt+HorizWheel"
  | .CtrlHorizWheel => str "Ctrl+HorizWheel"
  | .CtrlAltHorizWheel => str "Ctrl+Alt+HorizWheel"
  | .ShiftHorizWheel => str "Shift+HorizWheel"
  | .CtrlShiftHorizWheel => str "Ctrl+Shift+HorizWheel"
  | .AltShiftHorizWheel => str "Alt+Shift+HorizWheel"
  | .CtrlAltShiftHorizWheel => str "Ctrl+Alt+Shift+HorizWheel"
  | .MultiZoom => str "MultiZoom"
  | .CtrlMultiZoom => str "Ctrl+MultiZoom"
  | .AltMultiZoom => str "Alt+MultiZoom"
  | .CtrlAltShiftMultiZoom => str "Ctrl+Alt+Shift+MultiZoom"
  | .MultiRotate => str "MultiRotate"
  | .CtrlMultiRotate => str "Ctrl+MultiRotate"
  | .MultiHorz => str "MultiHorz"
  | .MultiVert => str "MultiVert"
  | .MediaKey key => str "MediaKey(" ++ natToChars key ++ str ")"
  | .Unknown key => str "Unknown(" ++ natToChars key ++ str ")"

end SpecialInput

/-- The low alias key codes accepted by `from_key_code` in addition to the
canonical ones used by `to_key_code`; each maps to its canonical code + 128. -/
def specialAliasCodes : List Nat := [24, 25, 40, 56, 72, 73, 74, 88, 90, 120, 121, 122, 123, 125]

theorem special_roundtrip_small : ∀ c, c < 488 →
    SpecialInput.to_key_code (SpecialInput.from_key_code c) =
      (if c ∈ specialAliasCodes then c + 128 else c) := by decide

theorem special_from_key_code_large {c : Nat} (h : 488 ≤ c) :
    SpecialInput.from_key_code c = .MediaKey c := by
  have h24 : ¬ (c = 120 ∨ c = 248) := by omega
  have h1 : ¬ (c = 121 ∨ c = 249) := by omega
  have h2 : ¬ (c = 122 ∨ c = 250) := by omega
  have h3 : ¬ (c = 123 ∨ c = 251) := by omega
  have h4 : ¬ (c = 125 ∨ c = 253) := by omega
  have h5 : ¬ (c = 252) := by omega
  have h6 : ¬ (c = 254) := by omega
  have h7 : ¬ (c = 255) := by omega
  have h8 : ¬ (c = 88 ∨ c = 216) := by omega
  have h9 : ¬ (c = 90 ∨ c = 218) := by omega
  have h10 : ¬ (c = 217) := by omega
  have h11 : ¬ (c = 219) := by omega
  have h12 : ¬ (c = 220) := by omega
  have h13 : ¬ (c = 221) := by omega
  have h14 : ¬ (c = 222) := by omega
  have h15 : ¬ (c = 223) := by omega
  have h16 : ¬ (c = 72 ∨ c = 200) := by omega
  have h17 : ¬ (c = 73 ∨ c = 201) := by omega
  have h18 : ¬ (c = 74 ∨ c = 202) := by omega
  have h19 : ¬ (c = 207) := by omega
  have h20 : ¬ (c = 24 ∨ c = 152) := by omega
  have h21 : ¬ (c = 25 ∨ c = 153) := by omega
  have h22 : ¬ (c = 40 ∨ c = 168) := by omega
  have h23 : ¬ (c = 56 ∨ c = 184) := by omega
  simp only [SpecialInput.from_key_code, if_neg h24, if_neg h1, if_neg h2, if_neg h3,
    if_neg h4, if_neg h5, if_neg h6, if_neg h7, if_neg h8, if_neg h9, if_neg h10,
    if_neg h11, if_neg h12, if_neg h13, if_neg h14, if_neg h15, if_neg h16, if_neg h17,
    if_neg h18, if_neg h19, if_neg h20, if_neg h21, if_neg h22, if_neg h23]
  by_cases hm : 232 ≤ c ∧ (c - 232) % 256 = 0
  · rw [if_pos hm]
  · rw [if_neg hm, if_pos h]

/-- Key-code round trip: exact except on the 14 low alias codes, which
re-encode to their canonical value (alias + 128). -/
theorem special_roundtrip (c : Nat) :
    SpecialInput.to_key_code (SpecialInput.from_key_code c) =
      (if c ∈ specialAliasCodes then c + 128 else c) := by
  by_cases h : c < 488
  · exact special_roundtrip_small c h
  · have h488 : 488 ≤ c := by omega
    rw [special_from_key_code_large h488]
    rw [if_neg ?_]
    · rfl
    · intro hmem
      simp only [specialAliasCodes, List.mem_cons, List.not_mem_nil, or_false] at hmem
      rcases hmem with h | h | h | h | h | h | h | h | h | h | h | h | h | h <;> omega

/-! ## Sections (`src/sections.rs`) -/

/-- `ReaperActionSection`: the closed table of section contexts. -/
inductive ReaperActionSection where
  | Main | MainAltRecording
  | MainAlt1 | MainAlt2 | MainAlt3 | MainAlt4 | MainAlt5 | MainAlt6 | MainAlt7 | MainAlt8
  | MainAlt9 | MainAlt10 | MainAlt11 | MainAlt12 | MainAlt13 | MainAlt14 | MainAlt15 | MainAlt16
  | MidiEditor | MidiEventList | MidiInline | MediaExplorer
deriving DecidableEq, Repr

namespace ReaperActionSection

/-- The numeric discriminants (`#[repr(u32)]` values). -/
def as_u32 : ReaperActionSection → Nat
  | .Main => 0
  | .MainAltRecording => 100
  | .MainAlt1 => 1
  | .MainAlt2 => 2
  | .MainAlt3 => 3
  | .MainAlt4 => 4
  | .MainAlt5 => 5
  | .MainAlt6 => 6
  | .MainAlt7 => 7
  | .MainAlt8 => 8
  | .MainAlt9 => 9
  | .MainAlt10 => 10
  | .MainAlt11 => 11
  | .MainAlt12 => 12
  | .MainAlt13 => 13
  | .MainAlt14 => 14
  | .MainAlt15 => 15
  | .MainAlt16 => 16
  | .MidiEditor => 32060
  | .MidiEventList => 32061
  | .MidiInline => 32062
  | .MediaExplorer => 32063

/-- `ReaperActionSection::from_u32` (via `num_enum` `TryFromPrimitive`:
exact discriminant match). -/
def from_u32 (n : Nat) : Option ReaperActionSection :=
  if n = 0 then some .Main
  else if n = 100 then some .MainAltRecording
  else if n = 1 then some .MainAlt1
  else if n = 2 then some .MainAlt2
  else if n = 3 then some .MainAlt3
  else if n = 4 then some .MainAlt4
  else if n = 5 then some .MainAlt5
  else if n = 6 then some .MainAlt6
  else if n = 7 then some .MainAlt7
  else if n = 8 then some .MainAlt8
  else if n = 9 then some .MainAlt9
  else if n = 10 then some .MainAlt10
  else if n = 11 then some .MainAlt11
  else if n = 12 then some .MainAlt12
  else if n = 13 then some .MainAlt13
  else if n = 14 then some .MainAlt14
  else if n = 15 then some .MainAlt15
  else if n = 16 then some .MainAlt16
  else if n = 32060 then some .MidiEditor
  else if n = 32061 then some .MidiEventList
  else if n = 32062 then some .MidiInline
  else if n = 32063 then some .MediaExplorer
  else none

/-- `ReaperActionSection::display_name`. -/
def display_name : ReaperActionSection → List Char
  | .Main => str "Main"
  | .MainAltRecording => str "Main (alt recording)"
  | .MainAlt1 => str "Main (alt-1)"
  | .MainAlt2 => str "Main (alt-2)"
  | .MainAlt3 => str "Main (alt-3)"
  | .MainAlt4 => str "Main (alt-4)"
  | .MainAlt5 => str "Main (alt-5)"
  | .MainAlt6 => str "Main (alt-6)"
  | .MainAlt7 => str "Main (alt-7)"
  | .MainAlt8 => str "Main (alt-8)"
  | .MainAlt9 => str "Main (alt-9)"
  | .MainAlt10 => str "Main (alt-10)"
  | .MainAlt11 => str "Main (alt-11)"
  | .MainAlt12 => str "Main (alt-12)"
  | .MainAlt13 => str "Main (alt-13)"
  | .MainAlt14 => str "Main (alt-14)"
  | .MainAlt15 => str "Main (alt-15)"
  | .MainAlt16 => str "Main (alt-16)"
  | .MidiEditor => str "MIDI Editor"
  | .MidiEventList => str "MIDI Event List"
  | .MidiInline => str "MIDI Inline Editor"
  | .MediaExplorer => str "Media Explorer"

theorem from_u32_as_u32 (s : ReaperActionSection) : from_u32 (as_u32 s) = some s := by
  cases s <;> rfl

theorem as_u32_lt (s : ReaperActionSection) : as_u32 s < 4294967296 := by
  cases s <;> decide

end ReaperActionSection

/-! ## Scripts and actions (`src/action_list.rs`) -/

/-- `TerminationBehavior` (`#[repr(u32)]`): Prompt = 4,
TerminateExisting = 260, AlwaysNewInstance = 516. -/
inductive TerminationBehavior where
  | Prompt | TerminateExisting | AlwaysNewInstance
deriving DecidableEq, Repr

namespace TerminationBehavior

def toU32 : TerminationBehavior → Nat
  | .Prompt => 4
  | .TerminateExisting => 260
  | .AlwaysNewInstance => 516

/-- `TerminationBehavior::try_from` (via `num_enum`). -/
def tryFromU32 (n : Nat) : Option TerminationBehavior :=
  if n = 4 then some .Prompt
  else if n = 260 then some .TerminateExisting
  else if n = 516 then some .AlwaysNewInstance
  else none

theorem tryFromU32_toU32 (t : TerminationBehavior) : tryFromU32 (toU32 t) = some t := by
  cases t <;> rfl

theorem toU32_lt (t : TerminationBehavior) : toU32 t < 4294967296 := by
  cases t <;> decide

end TerminationBehavior

/-- `ActionFlags` bitflags over `u32`; the defined bits are
CONSOLIDATE_UNDO = 1, SHOW_IN_MENUS = 2, ACTIVE_IF_ALL = 16,
ACTIVE_IF_ANY = 32 (mask 51). -/
structure ActionFlags where
  bits : Nat
deriving DecidableEq, Repr

namespace ActionFlags

def allBits : Nat := 51

/-- `ActionFlags::from_bits_truncate`: keep only defined bits. -/
def from_bits_truncate (n : Nat) : ActionFlags := ⟨n &&& allBits⟩

end ActionFlags

/-! ## Key codes

Modelled from the spec: the `keycodes` module (`src/keycodes.rs`) is declared
in `lib.rs` but its source is not present under `src/`.  Per spec §4.2 the
regular path maps the numeric code through "a fixed keyboard key-code table"
(unmapped codes fail with an invalid-key-code error), serialization emits the
stored code back (`as_u8`), and each key has a display name used in
generated comments.  The table below holds the codes exercised by the
repository's tests (space = 32, digits 48-57, letters 65-90, F1-F12 =
112-123); `KeyCode` is the subtype of codes in the table. -/

/-- Modelled from the spec: the fixed keyboard key-code table. -/
def keyCodeTable : List Nat :=
  [32] ++ (List.range 10).map (fun d => 48 + d) ++ (List.range 26).map (fun i => 65 + i) ++
    (List.range 12).map (fun i => 112 + i)

/-- Modelled from the spec: a validated keyboard key code. -/
def KeyCode := {n : Nat // n ∈ keyCodeTable}

instance : DecidableEq KeyCode := Subtype.instDecidableEq

/-- Modelled from the spec: `KeyCode::from_u16` — table lookup, `None` when
the code is unmapped. -/
def KeyCode.from_u16 (n : Nat) : Option KeyCode :=
  if h : n ∈ keyCodeTable then some ⟨n, h⟩ else none

/-- Modelled from the spec: `KeyCode::as_u8` — the stored code. -/
def KeyCode.as_u8 (k : KeyCode) : Nat := k.val

/-- Modelled from the spec: `KeyCode::display_name` — the key's label
(letters and digits display as themselves, space as `Space`,
F-keys as `F1`..`F12`). -/
def KeyCode.display_name (k : KeyCode) : List Char :=
  if k.val = 32 then str "Space"
  else if 112 ≤ k.val then str "F" ++ natToChars (k.val - 111)
  else [Char.ofNat k.val]

theorem KeyCode.from_u16_as_u8 (k : KeyCode) : KeyCode.from_u16 (KeyCode.as_u8 k) = some k := by
  simp [KeyCode.from_u16, KeyCode.as_u8, k.property]

theorem keyCodeTable_lt {n : Nat} (h : n ∈ keyCodeTable) : n < 256 := by
  simp only [keyCodeTable, List.mem_append, List.mem_map, List.mem_range,
    List.mem_singleton] at h
  rcases h with (h | ⟨d, hd, rfl⟩) | ⟨i, hi, rfl⟩ | ⟨i, hi, rfl⟩ <;> omega

theorem KeyCode.as_u8_lt (k : KeyCode) : KeyCode.as_u8 k < 256 :=
  keyCodeTable_lt k.property

/-! ## The entry model (`src/action_list.rs`) -/

/-- `ParseError` (the `IoError` variant never arises in `from_line` and is
modelled separately in the loader; the `err` message string carried by
`InvalidNumber` is dropped). -/
inductive ParseError where
  | MissingField (tag field : String)
  | InvalidNumber (tag field : String)
  | InvalidModifierCode (b : Nat)
  | InvalidKeyCode (b : Nat)
  | InvalidSectionCode (n : Nat)
  | InvalidTermination (n : Nat)
  | InvalidTag (t : List Char)
deriving DecidableEq, Repr

instance {ε α : Type} [DecidableEq ε] [DecidableEq α] : DecidableEq (Except ε α) := by
  intro a b
  cases a <;> cases b
  case error.error x y =>
    exact if h : x = y then isTrue (by rw [h]) else isFalse (by intro hh; cases hh; exact h rfl)
  case error.ok x y => exact isFalse (by intro hh; cases hh)
  case ok.error x y => exact isFalse (by intro hh; cases hh)
  case ok.ok x y =>
    exact if h : x = y then isTrue (by rw [h]) else isFalse (by intro hh; cases hh; exact h rfl)

/-- `KeyInputType`: regular keyboard key, or special input under
modifier code 255. -/
inductive KeyInputType where
  | Regular (key : KeyCode)
  | Special (input : SpecialInput)
deriving DecidableEq

/-- Structured keymap comment. -/
structure Comment where
  section_label : List Char
  key_combination : List Char
  behavior_flag : Option (List Char)
  action_description : Option (List Char)
  parsed_action_name : Option (List Char)
  is_midi_relative : Bool
deriving DecidableEq

/-- A `KEY` entry. -/
structure KeyEntry where
  modifiers : Modifiers
  key_input : KeyInputType
  command_id : List Char
  sec : ReaperActionSection
  comment : Option Comment
deriving DecidableEq

/-- A `SCR` entry. -/
structure ScriptEntry where
  termination_behavior : TerminationBehavior
  sec : ReaperActionSection
  command_id : List Char
  descr : List Char
  path : List Char
deriving DecidableEq

/-- An `ACT` entry. -/
structure ActionEntry where
  action_flags : ActionFlags
  sec : ReaperActionSection
  command_id : List Char
  descr : List Char
  action_ids : List (List Char)
deriving DecidableEq

/-- `ReaperEntry`: the tagged union of the three binding kinds. -/
inductive ReaperEntry where
  | Key (k : KeyEntry)
  | Script (s : ScriptEntry)
  | Action (a : ActionEntry)
deriving DecidableEq

namespace Comment

/-- The field assembly of `Comment::from_line`, once the colon-split parts
(each trimmed) are in hand. -/
def fromParts (parts : List (List Char)) : Comment :=
  let sectionLabel := parts.getD 0 []
  let key_combination := parts.getD 1 []
  let p2 := parts.getD 2 []
  let behavior_flag :=
    if 2 < parts.length ∧ p2 ≠ [] then
      if containsStr p2 (str "OVERRIDE") || containsStr p2 (str "DISABLED") ||
          containsStr p2 (str "DEFAULT") then
        some p2
      else none
    else none
  let action_description :=
    if behavior_flag.isSome ∧ 3 < parts.length then
      let remaining := parts.drop 3
      if remaining ≠ [] ∧ ¬ (∀ r ∈ remaining, r = []) then
        some (joinSep (str ": ") remaining)
      else none
    else if behavior_flag = none ∧ 2 < parts.length ∧ p2 ≠ [] then
      some (joinSep (str ": ") (parts.drop 2))
    else none
  let nameMidi :=
    match action_description with
    | some desc =>
      let isMidiRel := containsStr desc (str "(MIDI CC relative/mousewheel)") ||
        containsStr desc (str "(MIDI relative/mousewheel)")
      let actionName :=
        if '(' ∈ desc then trim (desc.takeWhile (fun c => c ≠ '(')) else desc
      (some actionName, isMidiRel)
    | none => (none, false)
  { section_label := sectionLabel
    key_combination := key_combination
    behavior_flag := behavior_flag
    action_description := action_description
    parsed_action_name := nameMidi.1
    is_midi_relative := nameMidi.2 }

/-- The body of `Comment::from_line` after the `#` is stripped:
`content` is already trimmed; split on `':'`, trim each part, and require
at least two parts. -/
def fromContent (content : List Char) : Option Comment :=
  if ((splitOnChar ':' content).map trim).length < 2 then none
  else some (fromParts ((splitOnChar ':' content).map trim))

/-- `Comment::from_line`: parse a structured comment from a `#` line. -/
def from_line (l : List Char) : Option Comment :=
  match trim l with
  | [] => none
  | c :: rest =>
    if c = '#' then fromContent (trim rest)
    else none

/-- `Comment::to_line`. -/
def to_line (c : Comment) : List Char :=
  let parts := [c.section_label, c.key_combination] ++
    (match c.behavior_flag with | some b => [b] | none => []) ++
    (match c.action_description with | some a => [a] | none => [])
  str "# " ++ joinSep (str " : ") parts

end Comment

namespace KeyEntry

/-- `KeyEntry::generate_key_description`. -/
def generate_key_description (k : KeyEntry) : List Char :=
  let parts : List (List Char) :=
    (if Modifiers.contFlag k.modifiers Modifiers.SUPER then [str "Cmd"] else []) ++
    (if Modifiers.contFlag k.modifiers Modifiers.ALT then [str "Opt"] else []) ++
    (if Modifiers.contFlag k.modifiers Modifiers.SHIFT then [str "Shift"] else []) ++
    (if Modifiers.contFlag k.modifiers Modifiers.CONTROL then [str "Control"] else [])
  let key_desc : List Char :=
    match k.key_input with
    | .Regular kc => kc.display_name
    | .Special si => si.displayStr
  let parts := parts ++ (if key_desc ≠ [] then [key_desc] else [])
  if parts = [] then [] else joinSep (str "+") parts

end KeyEntry

namespace Comment

/-- `Comment::from_key_entry`. -/
def from_key_entry (k : KeyEntry) : Comment :=
  { section_label := k.sec.display_name
    key_combination := k.generate_key_description
    behavior_flag :=
      if k.command_id = str "0" then some (str "DISABLED DEFAULT")
      else some (str "OVERRIDE DEFAULT")
    action_description := none
    parsed_action_name := none
    is_midi_relative := false }

end Comment

/-- `KeyEntry::generate_comment`. -/
def KeyEntry.generate_comment (k : KeyEntry) : Comment := Comment.from_key_entry k

/-- `escape_field`: backslash-escape backslashes and double quotes
(`replace('\\', "\\\\").replace('"', "\\\"")`). -/
def escape_field (s : List Char) : List Char :=
  s.flatMap (fun c => if c = '\\' then ['\\', '\\'] else if c = '"' then ['\\', '"'] else [c])

namespace ReaperEntry

/-- `ReaperEntry::to_line`. -/
def to_line : ReaperEntry → List Char
  | .Key k =>
    let key_value : Nat :=
      match k.key_input with
      | .Regular kc => kc.as_u8
      | .Special si => si.to_key_code
    let base := str "KEY " ++ natToChars (k.modifiers.reaper_code) ++ str " " ++
      natToChars key_value ++ str " " ++ k.command_id ++ str " " ++ natToChars k.sec.as_u32
    match k.comment with
    | some c => base ++ str " " ++ c.to_line
    | none => base ++ str " " ++ (k.generate_comment).to_line
  | .Script s =>
    let desc := escape_field s.descr
    let cmd := escape_field s.command_id
    let cmd_q := if cmd.any (fun c => isWS c) then str "\"" ++ cmd ++ str "\"" else cmd
    let path_q := if s.path.any (fun c => isWS c) then str "\"" ++ s.path ++ str "\"" else s.path
    str "SCR " ++ natToChars s.termination_behavior.toU32 ++ str " " ++
      natToChars s.sec.as_u32 ++ str " " ++ cmd_q ++ str " \"" ++ desc ++ str "\" " ++ path_q
  | .Action a =>
    let cmd := escape_field a.command_id
    let desc := escape_field a.descr
    let ids := joinSep (str " ") a.action_ids
    if ids = [] then
      str "ACT " ++ natToChars a.action_flags.bits ++ str " " ++ natToChars a.sec.as_u32 ++
        str " \"" ++ cmd ++ str "\" \"" ++ desc ++ str "\""
    else
      str "ACT " ++ natToChars a.action_flags.bits ++ str " " ++ natToChars a.sec.as_u32 ++
        str " \"" ++ cmd ++ str "\" \"" ++ desc ++ str "\" " ++ ids

/-- The `KEY` branch of `from_line`, applied to the tokens after the tag and
to the raw comment part. -/
def parseKeyTokens (toks : List (List Char)) (cpart : Option (List Char)) :
    Except ParseError ReaperEntry :=
  match toks with
  | [] => .error (.MissingField "KEY" "modifiers")
  | modsStr :: toks =>
    match parseU8 modsStr with
    | none => .error (.InvalidNumber "KEY" "modifiers")
    | some mods =>
      match Modifiers.try_from_reaper_code mods with
      | none => .error (.InvalidModifierCode mods)
      | some modifiers =>
        match toks with
        | [] => .error (.MissingField "KEY" "key_code")
        | codeStr :: toks =>
          match parseU16 codeStr with
          | none => .error (.InvalidNumber "KEY" "key_code")
          | some code =>
            match (if modifiers.is_special_input then
                .ok (.Special (SpecialInput.from_key_code code))
              else
                match KeyCode.from_u16 code with
                | some kc => .ok (.Regular kc)
                | none => .error (.InvalidKeyCode code) : Except ParseError KeyInputType) with
            | .error e => .error e
            | .ok key_input =>
              match toks with
              | [] => .error (.MissingField "KEY" "command_id")
              | cmd :: toks =>
                match toks with
                | [] => .error (.MissingField "KEY" "section")
                | secStr :: _ =>
                  match parseU32 secStr with
                  | none => .error (.InvalidNumber "KEY" "section")
                  | some secN =>
                    match ReaperActionSection.from_u32 secN with
                    | none => .error (.InvalidSectionCode secN)
                    | some sec =>
                      .ok (.Key {
                        modifiers := modifiers
                        key_input := key_input
                        command_id := cmd
                        sec := sec
                        comment := cpart.bind Comment.from_line })

/-- The `SCR` branch of `from_line`: tokens after the tag, plus the whole
data part for quote splitting. -/
def parseScrTokens (toks : List (List Char)) (before : List Char) :
    Except ParseError ReaperEntry :=
  match toks with
  | [] => .error (.MissingField "SCR" "termination")
  | termStr :: toks =>
    match parseU32 termStr with
    | none => .error (.InvalidNumber "SCR" "termination")
    | some termN =>
      match TerminationBehavior.tryFromU32 termN with
      | none => .error (.InvalidTermination termN)
      | some termination_behavior =>
        match toks with
        | [] => .error (.MissingField "SCR" "section")
        | secStr :: toks =>
          match parseU32 secStr with
          | none => .error (.InvalidNumber "SCR" "section")
          | some secN =>
            match ReaperActionSection.from_u32 secN with
            | none => .error (.InvalidSectionCode secN)
            | some sec =>
              if '"' ∈ before then
                if (splitOnChar '"' before).length < 3 then
                  .error (.MissingField "SCR" "description")
                else
                  if (splitWhitespace ((splitOnChar '"' before).getD 0 [])).length = 3 then
                    if (splitOnChar '"' before).length < 5 then
                      .error (.MissingField "SCR" "description")
                    else
                      .ok (.Script {
                        termination_behavior := termination_behavior
                        sec := sec
                        command_id := (splitOnChar '"' before).getD 1 []
                        descr := (splitOnChar '"' before).getD 3 []
                        path :=
                          if 5 < (splitOnChar '"' before).length then
                            (splitOnChar '"' before).getD 5 []
                          else trim ((splitOnChar '"' before).getD 4 []) })
                  else
                    match toks with
                    | [] => .error (.MissingField "SCR" "command_id")
                    | cmd :: _ =>
                      .ok (.Script {
                        termination_behavior := termination_behavior
                        sec := sec
                        command_id := cmd
                        descr := (splitOnChar '"' before).getD 1 []
                        path :=
                          if 3 < (splitOnChar '"' before).length then
                            (splitOnChar '"' before).getD 3 []
                          else trim ((splitOnChar '"' before).getD 2 []) })
              else .error (.MissingField "SCR" "description")

/-- The `ACT` branch of `from_line`. -/
def parseActTokens (toks : List (List Char)) (before : List Char) :
    Except ParseError ReaperEntry :=
  match toks with
  | [] => .error (.MissingField "ACT" "flags")
  | flagsStr :: toks =>
    match parseU32 flagsStr with
    | none => .error (.InvalidNumber "ACT" "flags")
    | some flagsN =>
      match toks with
      | [] => .error (.MissingField "ACT" "section")
      | secStr :: _ =>
        match parseU32 secStr with
        | none => .error (.InvalidNumber "ACT" "section")
        | some secN =>
          match ReaperActionSection.from_u32 secN with
          | none => .error (.InvalidSectionCode secN)
          | some sec =>
            if (splitOnChar '"' before).length < 4 then
              .error (.MissingField "ACT" "command_id/description")
            else
              .ok (.Action {
                action_flags := ActionFlags.from_bits_truncate flagsN
                sec := sec
                command_id := (splitOnChar '"' before).getD 1 []
                descr := (splitOnChar '"' before).getD 3 []
                action_ids := splitWhitespace ((splitOnChar '"' before).getD 4 []) })

/-- `ReaperEntry::from_line`. -/
def from_line (line : List Char) : Except ParseError ReaperEntry :=
  match splitWhitespace (trim (splitHash line).1) with
  | [] => .error (.MissingField "<line>" "tag")
  | tag :: rest =>
    if tag = str "KEY" then
      parseKeyTokens rest ((splitHash line).2.map (fun r => '#' :: r))
    else if tag = str "SCR" then parseScrTokens rest (trim (splitHash line).1)
    else if tag = str "ACT" then parseActTokens rest (trim (splitHash line).1)
    else .error (.InvalidTag tag)

end ReaperEntry

/-! ## Claims C1, C5: the modifier byte codec -/

/-- C1, counterexample: byte 129 is in 1..=254 and decodes successfully (to
the bare SPECIAL_INPUT flag, since 129 - 1 = 128 is a defined bit), but its
re-encoding is 255, not 129 — so the round trip claimed for every
successfully-decoding byte in 1..=254 fails. -/
theorem c1_counterexample :
    Modifiers.try_from_reaper_code 129 = some ⟨128⟩ ∧
    Modifiers.reaper_code ⟨128⟩ = 255 ∧ (255 : Nat) ≠ 129 := by decide

/-- Bool checker for the amended C1 round trip, for a decidable sweep of all
bytes. -/
def modifierRoundtripCheck (B : Nat) : Bool :=
  match Modifiers.try_from_reaper_code B with
  | some m => if m.is_special_input then m.reaper_code == 255 else m.reaper_code == B
  | none => true

theorem modifierRoundtripCheck_all : ∀ B : Nat, B < 255 →
    modifierRoundtripCheck B = true := by decide

/-- C1 (amended): for every byte B in 1..=254 that decodes to a modifier set
m, if m does not carry the SPECIAL_INPUT flag then `m.reaper_code() = B`,
while a decoded set carrying the flag re-encodes to 255; and
`try_from_reaper_code(255)` returns the special-input sentinel set, whose
`reaper_code()` is again 255. -/
theorem c1_modifier_byte_roundtrip_amended :
    (∀ B : Nat, 1 ≤ B → B ≤ 254 → ∀ m, Modifiers.try_from_reaper_code B = some m →
      (m.is_special_input = false → m.reaper_code = B) ∧
      (m.is_special_input = true → m.reaper_code = 255)) ∧
    Modifiers.try_from_reaper_code 255 = some Modifiers.SPECIAL_INPUT ∧
    Modifiers.SPECIAL_INPUT.is_special_input = true ∧
    Modifiers.reaper_code Modifiers.SPECIAL_INPUT = 255 := by
  refine ⟨?_, by decide, by decide, by decide⟩
  intro B h1 h2 m hm
  have h := modifierRoundtripCheck_all B (by omega)
  unfold modifierRoundtripCheck at h
  rw [hm] at h
  simp only [] at h
  constructor
  · intro hf
    rw [hf] at h
    simp only [Bool.false_eq_true, if_false, beq_iff_eq] at h
    exact h
  · intro ht
    rw [ht] at h
    simp only [if_true, beq_iff_eq] at h
    exact h

theorem c1_modifier_byte_roundtrip_amended_witness :
    Modifiers.reaper_code ⟨36⟩ = 37 :=
  (c1_modifier_byte_roundtrip_amended.1 37 (by norm_num) (by norm_num) ⟨36⟩
    (by decide)).1 (by decide)

/-- C5, counterexample: byte 129 is not 255 and 129 - 1 = 128 has a bit set
outside the regular-modifier positions shift = 4, super = 8, alt = 16,
control = 32 (mask 60), so the claim says decoding fails — but
`try_from_reaper_code(129)` succeeds. -/
theorem c5_counterexample :
    (129 : Nat) ≠ 255 ∧ (129 - 1) &&& 60 ≠ 129 - 1 ∧
    Modifiers.try_from_reaper_code 129 ≠ none := by decide

/-- C5 (amended): for bytes below 256, decoding fails exactly when the byte
is less than 1 or `byte - 1` has bits outside the defined flag positions
shift = 4, super = 8, alt = 16, control = 32 and special-input = 128
(mask 188) — except byte 255, which always succeeds (yielding the sentinel). -/
theorem c5_modifier_decode_failure_amended :
    ∀ n : Nat, n < 256 →
      (n ≠ 255 →
        (Modifiers.try_from_reaper_code n = none ↔ (n < 1 ∨ (n - 1) &&& 188 ≠ n - 1))) ∧
      (n = 255 → Modifiers.try_from_reaper_code n = some Modifiers.SPECIAL_INPUT) := by
  decide

theorem c5_modifier_decode_failure_amended_witness :
    Modifiers.try_from_reaper_code 67 = none :=
  ((c5_modifier_decode_failure_amended 67 (by norm_num)).1 (by norm_num)).2
    (by decide)

/-! ## Claim C2: the special-input codec -/

/-- C2, counterexample: `from_key_code(120)` succeeds (Mousewheel), but
re-encoding gives 248, not 120 — so `encode(decode_special(c)) = c` does not
hold for every `u16` code. -/
theorem c2_counterexample :
    SpecialInput.to_key_code (SpecialInput.from_key_code 120) = 248 ∧
    (248 : Nat) ≠ 120 := by decide

/-- Is a special input one of the open fallback variants? -/
def SpecialInput.isFallback : SpecialInput → Bool
  | .MediaKey _ => true
  | .Unknown _ => true
  | _ => false

theorem special_raw_small : ∀ c, c < 488 →
    ((SpecialInput.from_key_code c).isFallback = true →
      SpecialInput.to_key_code (SpecialInput.from_key_code c) = c) := by decide

/-- The fallback variants always carry the raw decoded value. -/
theorem special_raw_value (c : Nat) :
    (∀ k, SpecialInput.from_key_code c = .MediaKey k → k = c) ∧
    (∀ k, SpecialInput.from_key_code c = .Unknown k → k = c) := by
  have key : (SpecialInput.from_key_code c).isFallback = true →
      SpecialInput.to_key_code (SpecialInput.from_key_code c) = c := by
    by_cases h : c < 488
    · exact special_raw_small c h
    · intro _
      rw [special_from_key_code_large (by omega)]
      rfl
  constructor
  · intro k hk
    have h1 : SpecialInput.to_key_code (SpecialInput.from_key_code c) = c := by
      apply key; rw [hk]; rfl
    rw [hk] at h1
    exact h1
  · intro k hk
    have h1 : SpecialInput.to_key_code (SpecialInput.from_key_code c) = c := by
      apply key; rw [hk]; rfl
    rw [hk] at h1
    exact h1

/-- C2 (amended): decoding any `u16` code always succeeds with the fallback
variants carrying the raw value; `encode(decode_special(c)) = c` holds for
every code except the 14 low alias codes (24, 25, 40, 56, 72, 73, 74, 88,
90, 120, 121, 122, 123, 125), which re-encode to their canonical value
`c + 128`. -/
theorem c2_special_input_roundtrip_amended :
    ∀ c : Nat, c < 65536 →
      (SpecialInput.to_key_code (SpecialInput.from_key_code c) =
        if c ∈ specialAliasCodes then c + 128 else c) ∧
      (∀ k, SpecialInput.from_key_code c = .MediaKey k → k = c) ∧
      (∀ k, SpecialInput.from_key_code c = .Unknown k → k = c) := by
  intro c _
  exact ⟨special_roundtrip c, (special_raw_value c).1, (special_raw_value c).2⟩

theorem c2_special_input_roundtrip_amended_witness :
    SpecialInput.to_key_code (SpecialInput.from_key_code 300) = 300 :=
  ((c2_special_input_roundtrip_amended 300 (by norm_num)).1).trans (by decide)

theorem parseScrTokens_shape {toks : List (List Char)} {bef : List Char} {e : ReaperEntry}
    (h : ReaperEntry.parseScrTokens toks bef = .ok e) : ∃ s, e = .Script s := by
  unfold ReaperEntry.parseScrTokens at h
  repeat' split at h
  all_goals first
    | (injection h with h; exact ⟨_, h.symm⟩)
    | injection h

theorem parseActTokens_shape {toks : List (List Char)} {bef : List Char} {e : ReaperEntry}
    (h : ReaperEntry.parseActTokens toks bef = .ok e) : ∃ a, e = .Action a := by
  unfold ReaperEntry.parseActTokens at h
  repeat' split at h
  all_goals first
    | (injection h with h; exact ⟨_, h.symm⟩)
    | injection h

theorem parseKeyTokens_inversion {toks : List (List Char)} {cpart : Option (List Char)}
    {k : KeyEntry} (h : ReaperEntry.parseKeyTokens toks cpart = .ok (.Key k)) :
    ∃ (t1 t2 t3 t4 : List Char) (rest : List (List Char)) (B code : Nat),
      toks = t1 :: t2 :: t3 :: t4 :: rest ∧
      parseU8 t1 = some B ∧
      Modifiers.try_from_reaper_code B = some k.modifiers ∧
      parseU16 t2 = some code ∧
      (k.modifiers.is_special_input = true →
        k.key_input = .Special (SpecialInput.from_key_code code)) ∧
      (k.modifiers.is_special_input = false →
        ∃ kc, KeyCode.from_u16 code = some kc ∧ k.key_input = .Regular kc) ∧
      k.command_id = t3 ∧
      (∃ n, parseU32 t4 = some n ∧ ReaperActionSection.from_u32 n = some k.sec) ∧
      k.comment = cpart.bind Comment.from_line := by
  cases toks with
  | nil => simp [ReaperEntry.parseKeyTokens] at h
  | cons t1 toks =>
  cases hB : parseU8 t1 with
  | none => simp [ReaperEntry.parseKeyTokens, hB] at h
  | some B =>
  cases hM : Modifiers.try_from_reaper_code B with
  | none => simp [ReaperEntry.parseKeyTokens, hB, hM] at h
  | some mods =>
  cases toks with
  | nil => simp [ReaperEntry.parseKeyTokens, hB, hM] at h
  | cons t2 toks =>
  cases hC : parseU16 t2 with
  | none => simp [ReaperEntry.parseKeyTokens, hB, hM, hC] at h
  | some code =>
  cases toks with
  | nil =>
    simp only [ReaperEntry.parseKeyTokens, hB, hM, hC] at h
    split at h <;> simp at h
  | cons t3 toks =>
  cases toks with
  | nil =>
    simp only [ReaperEntry.parseKeyTokens, hB, hM, hC] at h
    split at h <;> simp at h
  | cons t4 rest =>
  cases hN : parseU32 t4 with
  | none =>
    simp only [ReaperEntry.parseKeyTokens, hB, hM, hC, hN] at h
    split at h <;> simp at h
  | some n =>
  cases hS : ReaperActionSection.from_u32 n with
  | none =>
    simp only [ReaperEntry.parseKeyTokens, hB, hM, hC, hN, hS] at h
    split at h <;> simp at h
  | some sec =>
  simp only [ReaperEntry.parseKeyTokens, hB, hM, hC, hN, hS] at h
  cases hsp : mods.is_special_input with
  | true =>
    rw [hsp] at h
    simp only [if_true, reduceIte] at h
    injection h with h
    injection h with h
    subst h
    refine ⟨t1, t2, t3, t4, rest, B, code, rfl, hB, hM, hC, ?_, ?_, rfl, ⟨n, hN, hS⟩, rfl⟩
    · intro _; rfl
    · intro hf
      change mods.is_special_input = false at hf
      rw [hsp] at hf
      exact Bool.noConfusion hf
  | false =>
    rw [hsp] at h
    simp only [Bool.false_eq_true, if_false, reduceIte] at h
    cases hK : KeyCode.from_u16 code with
    | none => rw [hK] at h; simp at h
    | some kc =>
      rw [hK] at h
      simp only [] at h
      injection h with h
      injection h with h
      subst h
      refine ⟨t1, t2, t3, t4, rest, B, code, rfl, hB, hM, hC, ?_, ?_, rfl, ⟨n, hN, hS⟩, rfl⟩
      · intro ht
        change mods.is_special_input = true at ht
        rw [hsp] at ht
        exact Bool.noConfusion ht
      · intro _
        exact ⟨kc, hK, rfl⟩

/-- `from_line` yields a `Key` entry exactly through the `KEY` branch. -/
theorem from_line_key_inversion {line : List Char} {k : KeyEntry}
    (h : ReaperEntry.from_line line = .ok (.Key k)) :
    ∃ rest, splitWhitespace (trim (splitHash line).1) = str "KEY" :: rest ∧
      ReaperEntry.parseKeyTokens rest ((splitHash line).2.map (fun r => '#' :: r)) =
        .ok (.Key k) := by
  unfold ReaperEntry.from_line at h
  cases hsw : splitWhitespace (trim (splitHash line).1) with
  | nil => rw [hsw] at h; exact Except.noConfusion h
  | cons tag rest =>
    rw [hsw] at h
    simp only [] at h
    by_cases htag : tag = str "KEY"
    · rw [if_pos htag] at h
      exact ⟨rest, by rw [htag], h⟩
    · rw [if_neg htag] at h
      by_cases h2 : tag = str "SCR"
      · rw [if_pos h2] at h
        obtain ⟨s, hs⟩ := parseScrTokens_shape h
        exact ReaperEntry.noConfusion hs
      · rw [if_neg h2] at h
        by_cases h3 : tag = str "ACT"
        · rw [if_pos h3] at h
          obtain ⟨a, ha⟩ := parseActTokens_shape h
          exact ReaperEntry.noConfusion ha
        · rw [if_neg h3] at h
          exact Except.noConfusion h

/-! ## Claim C6: the sentinel co-determination invariant -/

/-- C6: every `KeyEntry` produced by `ReaperEntry::from_line` has
`modifiers.is_special_input()` true exactly when its `key_input` is the
`Special` variant; a `Regular` input never carries the sentinel flag. -/
theorem c6_sentinel_codetermination {line : List Char} {k : KeyEntry}
    (h : ReaperEntry.from_line line = .ok (.Key k)) :
    (k.modifiers.is_special_input = true ↔ ∃ s, k.key_input = .Special s) ∧
    (∀ kc, k.key_input = .Regular kc → k.modifiers.is_special_input = false) := by
  obtain ⟨rest, _, hk⟩ := from_line_key_inversion h
  obtain ⟨t1, t2, t3, t4, rest', B, code, _, _, _, _, hsp, hreg, _, _, _⟩ :=
    parseKeyTokens_inversion hk
  constructor
  · constructor
    · intro ht
      exact ⟨_, hsp ht⟩
    · intro ⟨s, hs⟩
      cases hb : k.modifiers.is_special_input with
      | true => rfl
      | false =>
        obtain ⟨kc, _, hkc⟩ := hreg hb
        rw [hs] at hkc
        exact KeyInputType.noConfusion hkc
  · intro kc hkc
    cases hb : k.modifiers.is_special_input with
    | false => rfl
    | true =>
      have := hsp hb
      rw [hkc] at this
      exact KeyInputType.noConfusion this

theorem c6_sentinel_codetermination_witness :
    ∃ k : KeyEntry,
      ReaperEntry.from_line (str "KEY 255 248 40432 32060") = .ok (.Key k) ∧
      k.modifiers.is_special_input = true ∧ ∃ s, k.key_input = .Special s := by
  refine ⟨{ modifiers := ⟨128⟩
            key_input := .Special .Mousewheel
            command_id := str "40432"
            sec := .MidiEditor
            comment := none }, by decide, ?_⟩
  have h := c6_sentinel_codetermination
    (show ReaperEntry.from_line (str "KEY 255 248 40432 32060") =
      .ok (.Key { modifiers := ⟨128⟩
                  key_input := .Special .Mousewheel
                  command_id := str "40432"
                  sec := .MidiEditor
                  comment := none }) by decide)
  exact ⟨by decide, h.1.mp (by decide)⟩

/-- C7: for KEY, SCR and ACT lines whose earlier fields are valid, a section
integer outside the closed table yields `Err(InvalidSectionCode n)`. -/
theorem c7_invalid_section_code :
    (∀ (line t1 t2 t3 t4 : List Char) (rest : List (List Char)) (B code n : Nat)
        (m : Modifiers),
      splitWhitespace (trim (splitHash line).1) = str "KEY" :: t1 :: t2 :: t3 :: t4 :: rest →
      parseU8 t1 = some B →
      Modifiers.try_from_reaper_code B = some m →
      parseU16 t2 = some code →
      (m.is_special_input = false → KeyCode.from_u16 code ≠ none) →
      parseU32 t4 = some n →
      ReaperActionSection.from_u32 n = none →
      ReaperEntry.from_line line = .error (.InvalidSectionCode n)) ∧
    (∀ (line t1 t2 : List Char) (rest : List (List Char)) (tn n : Nat)
        (tb : TerminationBehavior),
      splitWhitespace (trim (splitHash line).1) = str "SCR" :: t1 :: t2 :: rest →
      parseU32 t1 = some tn →
      TerminationBehavior.tryFromU32 tn = some tb →
      parseU32 t2 = some n →
      ReaperActionSection.from_u32 n = none →
      ReaperEntry.from_line line = .error (.InvalidSectionCode n)) ∧
    (∀ (line t1 t2 : List Char) (rest : List (List Char)) (f n : Nat),
      splitWhitespace (trim (splitHash line).1) = str "ACT" :: t1 :: t2 :: rest →
      parseU32 t1 = some f →
      parseU32 t2 = some n →
      ReaperActionSection.from_u32 n = none →
      ReaperEntry.from_line line = .error (.InvalidSectionCode n)) := by
  refine ⟨?_, ?_, ?_⟩
  · intro line t1 t2 t3 t4 rest B code n m hsw hB hM hC hK hN hS
    unfold ReaperEntry.from_line
    rw [hsw]
    simp only [if_true]
    unfold ReaperEntry.parseKeyTokens
    simp only [hB, hM, hC, hN, hS]
    cases hsp : m.is_special_input with
    | true => simp only [hsp, if_true, reduceIte]
    | false =>
      cases hkc : KeyCode.from_u16 code with
      | none => exact absurd hkc (hK hsp)
      | some kc => simp only [hsp, Bool.false_eq_true, if_false, reduceIte, hkc]
  · intro line t1 t2 rest tn n tb hsw hT hTB hN hS
    unfold ReaperEntry.from_line
    rw [hsw]
    simp only [if_true]
    unfold ReaperEntry.parseScrTokens
    simp only [hT, hTB, hN, hS]
    rw [if_neg (by decide)]
  · intro line t1 t2 rest f n hsw hF hN hS
    unfold ReaperEntry.from_line
    rw [hsw]
    simp only [if_true]
    unfold ReaperEntry.parseActTokens
    simp only [hF, hN, hS]
    rw [if_neg (by decide), if_neg (by decide)]

theorem c7_invalid_section_code_witness :
    ReaperEntry.from_line (str "KEY 255 248 40044 99") = .error (.InvalidSectionCode 99) :=
  c7_invalid_section_code.1 (str "KEY 255 248 40044 99")
    (str "255") (str "248") (str "40044") (str "99") [] 255 248 99 ⟨128⟩
    (by decide) (by decide) (by decide) (by decide)
    (fun hf => absurd hf (by decide)) (by decide) (by decide)

/-- The comment argument only feeds the stored comment field. -/
theorem parseKeyTokens_comment_congr (toks : List (List Char))
    (c1 c2 : Option (List Char))
    (h : c1.bind Comment.from_line = c2.bind Comment.from_line) :
    ReaperEntry.parseKeyTokens toks c1 = ReaperEntry.parseKeyTokens toks c2 := by
  unfold ReaperEntry.parseKeyTokens
  rw [h]

/-- C8: a present comment part that fails the comment grammar leaves the
entry's comment `None` and does not fail the line: parsing the whole line
gives exactly the entry obtained from the data part alone (whose comment is
`None`). -/
theorem c8_comment_failure_never_fails_line {line r : List Char} {k : KeyEntry}
    (hr : (splitHash line).2 = some r)
    (hc : Comment.from_line ('#' :: r) = none)
    (hdata : ReaperEntry.from_line (splitHash line).1 = .ok (.Key k)) :
    ReaperEntry.from_line line = .ok (.Key k) ∧ k.comment = none := by
  have hbef : '#' ∉ (splitHash line).1 := splitHash_fst_no_hash line
  have hsb : splitHash ((splitHash line).1) = ((splitHash line).1, none) :=
    splitHash_no_hash hbef
  obtain ⟨rest, hsw, hk⟩ := from_line_key_inversion hdata
  rw [hsb] at hsw hk
  simp only [] at hsw hk
  have hcomm : k.comment = none := by
    obtain ⟨a1, a2, a3, a4, r5, B, code, _, _, _, _, _, _, _, _, hcm⟩ :=
      parseKeyTokens_inversion hk
    simpa using hcm
  refine ⟨?_, hcomm⟩
  unfold ReaperEntry.from_line
  rw [hsw]
  simp only [if_true]
  rw [parseKeyTokens_comment_congr rest
    ((splitHash line).2.map (fun r => '#' :: r)) none ?_]
  · simpa using hk
  · rw [hr]
    simp [hc]

/-! ## The entry list (`src/action_list.rs`): loading, keys, lookup -/

/-- An opaque I/O error token (`std::io::Error` carries no structure the
loader inspects). -/
structure IoError where
  code : Nat
deriving DecidableEq

/-- `ReaperActionList`. -/
structure ReaperActionList where
  entries : List ReaperEntry
deriving DecidableEq

/-- `ReaperActionList::load_from_file`, with the `BufReader::lines()` stream
modelled as the list of per-line read results: the `line?` in the loop
propagates an I/O error immediately, a parse failure drops the line
(`do_nothing`), a success is pushed in order. -/
def loadLines : List (Except IoError (List Char)) → List ReaperEntry →
    Except IoError ReaperActionList
  | [], acc => .ok ⟨acc.reverse⟩
  | .error e :: _, _ => .error e
  | .ok text :: rest, acc =>
    match ReaperEntry.from_line text with
    | .ok entry => loadLines rest (entry :: acc)
    | .error _ => loadLines rest acc

def ReaperActionList.load_from_file (lines : List (Except IoError (List Char))) :
    Except IoError ReaperActionList :=
  loadLines lines []

/-- `ReaperActionList::keys`: the `Key` payloads, in order. -/
def ReaperActionList.keys (l : ReaperActionList) : List KeyEntry :=
  l.entries.filterMap (fun e =>
    match e with
    | .Key k => some k
    | _ => none)

/-- The modelled key codes live inside `ReaperActionInput`. -/
structure ReaperActionInput where
  key : KeyCode
  modifiers : Modifiers
deriving DecidableEq

/-- `lookup_command_id`. -/
def lookup_command_id (list : ReaperActionList) (input : ReaperActionInput) :
    Option (List Char) :=
  (list.keys.find? (fun rk =>
    rk.modifiers == input.modifiers &&
      (match rk.key_input with
        | .Regular key => key == input.key
        | _ => false))).map (fun rk => rk.command_id)

theorem loadLines_all_ok (texts : List (List Char)) : ∀ acc,
    loadLines (texts.map .ok) acc =
      .ok ⟨acc.reverse ++ texts.filterMap (fun t => (ReaperEntry.from_line t).toOption)⟩ := by
  induction texts with
  | nil => intro acc; simp [loadLines]
  | cons t rest ih =>
    intro acc
    simp only [List.map_cons, loadLines]
    cases h : ReaperEntry.from_line t with
    | ok entry =>
      simp only []
      rw [ih (entry :: acc)]
      simp [h, Except.toOption]
    | error e =>
      simp only []
      rw [ih acc]
      simp [h, Except.toOption]

/-- C9: the loader never propagates a `ParseError` — with every read
succeeding, it returns `Ok` of exactly the successfully parsed lines in
order (so an input all of whose lines fail yields `Ok` with an empty list);
and the first I/O error aborts the whole load. -/
theorem c9_per_line_error_swallowing :
    (∀ texts : List (List Char),
      ReaperActionList.load_from_file (texts.map .ok) =
        .ok ⟨texts.filterMap (fun t => (ReaperEntry.from_line t).toOption)⟩) ∧
    (∀ texts : List (List Char),
      (∀ t ∈ texts, ∃ err, ReaperEntry.from_line t = .error err) →
      ReaperActionList.load_from_file (texts.map .ok) = .ok ⟨[]⟩) ∧
    (∀ (texts : List (List Char)) (e : IoError)
        (rest : List (Except IoError (List Char))),
      ReaperActionList.load_from_file (texts.map .ok ++ .error e :: rest) = .error e) := by
  refine ⟨?_, ?_, ?_⟩
  · intro texts
    unfold ReaperActionList.load_from_file
    rw [loadLines_all_ok texts []]
    simp
  · intro texts hall
    unfold ReaperActionList.load_from_file
    rw [loadLines_all_ok texts []]
    simp only [List.reverse_nil, List.nil_append]
    have hnil : texts.filterMap (fun t => (ReaperEntry.from_line t).toOption) = [] := by
      induction texts with
      | nil => rfl
      | cons t ts ih =>
        obtain ⟨err, herr⟩ := hall t (List.mem_cons_self t ts)
        rw [List.filterMap_cons]
        simp only [herr, Except.toOption]
        exact ih (fun x hx => hall x (List.mem_cons_of_mem t hx))
    rw [hnil]
  · intro texts e rest
    unfold ReaperActionList.load_from_file
    have : ∀ acc, loadLines (texts.map .ok ++ .error e :: rest) acc = .error e := by
      induction texts with
      | nil => intro acc; simp [loadLines]
      | cons t ts ih =>
        intro acc
        simp only [List.map_cons, List.cons_append, loadLines]
        cases h : ReaperEntry.from_line t with
        | ok entry => exact ih (entry :: acc)
        | error _ => exact ih acc
    exact this []

theorem c9_per_line_error_swallowing_witness :
    ReaperActionList.load_from_file
      ([str "garbage line", str "KEY", str "SCR 999 0 x"].map .ok) = .ok ⟨[]⟩ :=
  c9_per_line_error_swallowing.2.1 [str "garbage line", str "KEY", str "SCR 999 0 x"]
    (by
      intro t ht
      simp only [List.mem_cons, List.not_mem_nil, or_false] at ht
      rcases ht with rfl | rfl | rfl
      · exact ⟨.InvalidTag (str "garbage"), by decide⟩
      · exact ⟨.MissingField "KEY" "modifiers", by decide⟩
      · exact ⟨.InvalidTermination 999, by decide⟩)

theorem lookupPred_iff (rk : KeyEntry) (input : ReaperActionInput) :
    ((rk.modifiers == input.modifiers &&
      (match rk.key_input with
        | .Regular key => key == input.key
        | _ => false)) = true) ↔
    (rk.modifiers = input.modifiers ∧ rk.key_input = .Regular input.key) := by
  rw [Bool.and_eq_true, beq_iff_eq]
  cases hk : rk.key_input with
  | Regular key =>
    simp only [beq_iff_eq]
    constructor
    · intro ⟨h1, h2⟩
      exact ⟨h1, by rw [h2]⟩
    · intro ⟨h1, h2⟩
      injection h2 with h2
      exact ⟨h1, h2⟩
  | Special s =>
    simp only []
    constructor
    · intro ⟨_, h2⟩
      exact absurd h2 (by simp)
    · intro ⟨_, h2⟩
      exact KeyInputType.noConfusion h2

/-- C10: `lookup_command_id` returns the command id of the first `Key` entry
in list order whose modifiers equal the input's and whose input is
`Regular` of the input's key (`Special` entries never match); `None` exactly
when no such entry exists. -/
theorem c10_lookup_first_regular_match :
    ∀ (l : ReaperActionList) (input : ReaperActionInput),
      (lookup_command_id l input = none ↔
        ∀ k ∈ l.keys, ¬(k.modifiers = input.modifiers ∧ k.key_input = .Regular input.key)) ∧
      (∀ cid, lookup_command_id l input = some cid ↔
        ∃ (k : KeyEntry) (pre post : List KeyEntry),
          l.keys = pre ++ k :: post ∧
          k.modifiers = input.modifiers ∧ k.key_input = .Regular input.key ∧
          cid = k.command_id ∧
          ∀ k' ∈ pre,
            ¬(k'.modifiers = input.modifiers ∧ k'.key_input = .Regular input.key)) := by
  intro l input
  constructor
  · rw [lookup_command_id, Option.map_eq_none', List.find?_eq_none]
    constructor
    · intro h k hk
      rw [← lookupPred_iff k input]
      simp [h k hk]
    · intro h k hk
      rw [lookupPred_iff k input]
      exact h k hk
  · intro cid
    rw [lookup_command_id, Option.map_eq_some']
    constructor
    · intro ⟨rk, hfind, hcid⟩
      rw [List.find?_eq_some] at hfind
      obtain ⟨hp, pre, post, hsplit, hpre⟩ := hfind
      refine ⟨rk, pre, post, hsplit, ?_, ?_, hcid.symm, ?_⟩
      · exact ((lookupPred_iff rk input).1 hp).1
      · exact ((lookupPred_iff rk input).1 hp).2
      · intro k' hk' hcontra
        have := hpre k' hk'
        rw [Bool.not_eq_eq_eq_not, Bool.not_true] at this
        rw [← lookupPred_iff k' input] at hcontra
        rw [this] at hcontra
        exact Bool.noConfusion hcontra
    · intro ⟨k, pre, post, hsplit, hm, hki, hcid, hpre⟩
      refine ⟨k, ?_, hcid.symm⟩
      rw [List.find?_eq_some]
      refine ⟨(lookupPred_iff k input).2 ⟨hm, hki⟩, pre, post, hsplit, ?_⟩
      intro a ha
      rw [Bool.not_eq_eq_eq_not, Bool.not_true]
      cases hb : (a.modifiers == input.modifiers &&
          (match a.key_input with
            | .Regular key => key == input.key
            | _ => false)) with
      | false => rfl
      | true => exact absurd ((lookupPred_iff a input).1 hb) (hpre a ha)

def lookupKeyA : KeyEntry :=
  { modifiers := ⟨0⟩
    key_input := .Regular ⟨65, (by decide)⟩
    command_id := str "40044"
    sec := .Main
    comment := none }

def lookupKeyB : KeyEntry :=
  { modifiers := ⟨32⟩
    key_input := .Regular ⟨66, (by decide)⟩
    command_id := str "SWS_ACTION"
    sec := .Main
    comment := none }

def lookupInputB : ReaperActionInput :=
  { key := ⟨66, (by decide)⟩
    modifiers := ⟨32⟩ }

theorem c10_lookup_first_regular_match_witness :
    lookup_command_id ⟨[.Key lookupKeyA, .Key lookupKeyB]⟩ lookupInputB =
      some (str "SWS_ACTION") :=
  ((c10_lookup_first_regular_match ⟨[.Key lookupKeyA, .Key lookupKeyB]⟩ lookupInputB).2
    (str "SWS_ACTION")).mpr
    ⟨lookupKeyB, [lookupKeyA], [], by decide, by decide, by decide, by decide, by decide⟩

theorem c8_comment_failure_never_fails_line_witness :
    ReaperEntry.from_line (str "KEY 255 248 40044 0 #x") =
      .ok (.Key { modifiers := ⟨128⟩
                  key_input := .Special .Mousewheel
                  command_id := str "40044"
                  sec := .Main
                  comment := none }) ∧
    ({ modifiers := ⟨128⟩
       key_input := .Special .Mousewheel
       command_id := str "40044"
       sec := .Main
       comment := none } : KeyEntry).comment = none :=
  c8_comment_failure_never_fails_line
    (show (splitHash (str "KEY 255 248 40044 0 #x")).2 = some (str "x") by decide)
    (by decide) (by decide)

theorem dropWhileWS_ne_nil {m : List Char} {c : Char} (hc : isWS c = false) (h : c ∈ m) :
    m.dropWhile (fun c => isWS c) ≠ [] := by
  intro hnil
  have := mem_dropWhileWS_of_mem hc h
  rw [hnil] at this
  simp at this

theorem trimEnd_cons_of_exists {l : List Char} (hex : ∃ c ∈ l, isWS c = false) (a : Char) :
    trimEnd (a :: l) = a :: trimEnd l := by
  obtain ⟨c, hcl, hcws⟩ := hex
  unfold trimEnd
  rw [List.reverse_cons, List.dropWhile_append]
  have hne : l.reverse.dropWhile (fun c => isWS c) ≠ [] :=
    dropWhileWS_ne_nil hcws (List.mem_reverse.2 hcl)
  rw [if_neg (by simpa using hne)]
  simp

theorem comment_from_line_eq_content {l rest : List Char}
    (h : trim l = '#' :: rest) :
    Comment.from_line l = Comment.fromContent (trim rest) := by
  unfold Comment.from_line
  rw [h]
  simp

/-- A `#`-prefixed text with a colon in it parses to `Some` comment. -/
theorem comment_from_line_isSome {rest : List Char} (hcolon : ':' ∈ rest) :
    (Comment.from_line ('#' :: rest)).isSome = true := by
  have hex : ∃ c ∈ rest, isWS c = false := ⟨':', hcolon, by decide⟩
  have hline : trim ('#' :: rest) = '#' :: trimEnd rest := by
    rw [trim, trimStart_cons_of_not_ws (by decide), trimEnd_cons_of_exists hex]
  have hcont : ':' ∈ trim (trimEnd rest) :=
    mem_trim_of_mem (by decide) (mem_trimEnd_of_mem (by decide) hcolon)
  have hlen : 2 ≤ ((splitOnChar ':' (trim (trimEnd rest))).map trim).length := by
    rw [List.length_map]
    exact splitOnChar_length_ge_two hcont
  rw [comment_from_line_eq_content hline]
  unfold Comment.fromContent
  have hnl : ¬ (((splitOnChar ':' (trim (trimEnd rest))).map trim).length < 2) := by omega
  rw [if_neg hnl]
  rfl

/-! Modifier round trip for serialization. -/

def reaperRoundCheck (b : Nat) : Bool :=
  Modifiers.try_from_reaper_code (Modifiers.reaper_code ⟨b⟩) == some ⟨b⟩

theorem reaperRoundCheck_ok : ∀ b : Nat, b < 256 →
    b &&& 188 = b → (b &&& 128 = 0 ∨ b = 128) → reaperRoundCheck b = true := by decide

theorem and128_cases : ∀ b : Nat, b < 256 → b &&& 128 = 0 ∨ b &&& 128 = 128 := by decide

theorem reaper_code_lt (m : Modifiers) : Modifiers.reaper_code m < 256 := by
  unfold Modifiers.reaper_code
  split
  · norm_num
  · have : m.bits &&& 127 ≤ 127 := Nat.and_le_right
    omega

theorem try_from_valid {B : Nat} {m : Modifiers}
    (h : Modifiers.try_from_reaper_code B = some m) : m.bits &&& 188 = m.bits := by
  unfold Modifiers.try_from_reaper_code at h
  split at h
  · injection h with h
    subst h
    decide
  · split at h
    · exact Option.noConfusion h
    · unfold Modifiers.from_bits at h
      split at h
      · injection h with h
        subst h
        rename_i hcond
        simpa using beq_iff_eq.1 hcond
      · exact Option.noConfusion h

theorem reaper_roundtrip {m : Modifiers} (hv : m.bits &&& 188 = m.bits)
    (hs : m.is_special_input = true → m.bits = 128) :
    Modifiers.try_from_reaper_code (Modifiers.reaper_code m) = some m := by
  have hle : m.bits ≤ 188 := by
    conv_lhs => rw [← hv]
    exact Nat.and_le_right
  have hlt : m.bits < 256 := by omega
  have hor : m.bits &&& 128 = 0 ∨ m.bits = 128 := by
    rcases and128_cases m.bits hlt with h0 | h1
    · exact Or.inl h0
    · refine Or.inr (hs ?_)
      unfold Modifiers.is_special_input Modifiers.contFlag Modifiers.SPECIAL_INPUT
      simp only [h1]
      rfl
  have hck := reaperRoundCheck_ok m.bits hlt hv hor
  unfold reaperRoundCheck at hck
  have heta : (⟨m.bits⟩ : Modifiers) = m := rfl
  rw [heta] at hck
  exact beq_iff_eq.1 hck

/-! Special-input helpers for serialization. -/

theorem special_ftf_small : ∀ c, c < 488 →
    SpecialInput.from_key_code (SpecialInput.to_key_code (SpecialInput.from_key_code c)) =
      SpecialInput.from_key_code c := by decide

theorem special_from_to_from (c : Nat) :
    SpecialInput.from_key_code (SpecialInput.to_key_code (SpecialInput.from_key_code c)) =
      SpecialInput.from_key_code c := by
  by_cases h : c < 488
  · exact special_ftf_small c h
  · have h1 : SpecialInput.from_key_code c = .MediaKey c :=
      special_from_key_code_large (by omega)
    rw [h1]
    show SpecialInput.from_key_code c = SpecialInput.MediaKey c
    exact h1

theorem specialAliasCodes_lt : ∀ c ∈ specialAliasCodes, c < 256 := by decide

theorem special_to_lt {c : Nat} (h : c < 65536) :
    SpecialInput.to_key_code (SpecialInput.from_key_code c) < 65536 := by
  rw [special_roundtrip c]
  split
  · rename_i hmem
    have := specialAliasCodes_lt c hmem
    omega
  · exact h

theorem natToChars_not_hash (n : Nat) : '#' ∉ natToChars n :=
  fun h => natToChars_no_hash h rfl

theorem natToChars_not_quote (n : Nat) : '"' ∉ natToChars n :=
  fun h => natToChars_no_quote h rfl

theorem trimStart_eq_self_of_head {l : List Char} {c : Char}
    (h1 : l.head? = some c) (hc : isWS c = false) : trimStart l = l := by
  cases l with
  | nil => simp at h1
  | cons a rest =>
    simp only [List.head?_cons, Option.some.injEq] at h1
    subst h1
    exact trimStart_cons_of_not_ws hc rest

theorem trimEnd_eq_self_of_last {l : List Char} {d : Char}
    (h2 : l.getLast? = some d) (hd : isWS d = false) : trimEnd l = l := by
  unfold trimEnd
  cases hrev : l.reverse with
  | nil =>
    rw [List.reverse_eq_nil_iff] at hrev
    simp [hrev]
  | cons a rest =>
    have ha : l.getLast? = some a := by
      rw [List.getLast?_eq_head?_reverse, hrev]
      rfl
    rw [h2] at ha
    injection ha with ha
    subst ha
    rw [List.dropWhile_cons_of_neg (by simp [hd])]
    rw [← hrev, List.reverse_reverse]

theorem token_getLast {p : List Char} (hp : tokenLike p) :
    ∃ d, p.getLast? = some d ∧ isWS d = false := by
  obtain ⟨hne, hws⟩ := hp
  cases hlast : p.getLast? with
  | none =>
    rw [List.getLast?_eq_none_iff] at hlast
    exact absurd hlast hne
  | some d => exact ⟨d, rfl, hws d (List.mem_of_mem_getLast? hlast)⟩

theorem trimEnd_token {p : List Char} (hp : tokenLike p) : trimEnd p = p := by
  obtain ⟨d, hd, hdw⟩ := token_getLast hp
  exact trimEnd_eq_self_of_last hd hdw

theorem trim_sp_token {p : List Char} (hp : tokenLike p) : trim (' ' :: p) = p := by
  obtain ⟨hne, hws⟩ := hp
  have h1 : trimStart (' ' :: p) = p := by
    unfold trimStart
    rw [List.dropWhile_cons_of_pos (by decide)]
    cases p with
    | nil => rfl
    | cons a rest =>
      rw [List.dropWhile_cons_of_neg
        (by simp [hws a (List.mem_cons_self a rest)])]
  rw [trim, h1]
  exact trimEnd_token ⟨hne, hws⟩

theorem trim_eq_self_of_ends {l : List Char} {c d : Char}
    (h1 : l.head? = some c) (hc : isWS c = false)
    (h2 : l.getLast? = some d) (hd : isWS d = false) : trim l = l := by
  rw [trim, trimStart_eq_self_of_head h1 hc, trimEnd_eq_self_of_last h2 hd]

theorem escape_field_eq_self {s : List Char} (h1 : '\\' ∉ s) (h2 : '"' ∉ s) :
    escape_field s = s := by
  induction s with
  | nil => rfl
  | cons c cs ih =>
    have hc1 : c ≠ '\\' := fun hh => h1 (hh ▸ List.mem_cons_self c cs)
    have hc2 : c ≠ '"' := fun hh => h2 (hh ▸ List.mem_cons_self c cs)
    have ihr := ih (fun hh => h1 (List.mem_cons_of_mem c hh))
      (fun hh => h2 (List.mem_cons_of_mem c hh))
    simp only [escape_field, List.flatMap_cons, if_neg hc1, if_neg hc2]
    simp only [escape_field] at ihr
    rw [ihr]
    rfl

theorem not_mem_append' {c : Char} {a b : List Char} (ha : c ∉ a) (hb : c ∉ b) :
    c ∉ a ++ b := by
  intro h
  rcases List.mem_append.1 h with h | h
  · exact ha h
  · exact hb h

theorem getLast?_cons_of_ne_nil {α : Type} {l : List α} (h : l ≠ []) (c : α) :
    (c :: l).getLast? = l.getLast? := by
  cases l with
  | nil => exact absurd rfl h
  | cons a rest => rfl

theorem splitWhitespace_joinSep {ids : List (List Char)}
    (h : ∀ i ∈ ids, tokenLike i) : splitWhitespace (joinSep (str " ") ids) = ids := by
  induction ids with
  | nil => rfl
  | cons x xs ih =>
    cases xs with
    | nil =>
      simp only [joinSep]
      exact splitWhitespace_token (h x (List.mem_cons_self x []))
    | cons y ys =>
      have hx := h x (List.mem_cons_self x (y :: ys))
      have hrest := ih (fun i hi => h i (List.mem_cons_of_mem x hi))
      have harr : joinSep (str " ") (x :: y :: ys) =
          x ++ ' ' :: joinSep (str " ") (y :: ys) := by
        simp [joinSep, str]
      rw [harr, splitWhitespace_token_cons hx (by decide), hrest]

theorem joinSep_sp_ne_nil {ids : List (List Char)} (hne : ids ≠ [])
    (h : ∀ i ∈ ids, tokenLike i) : joinSep (str " ") ids ≠ [] := by
  cases ids with
  | nil => exact absurd rfl hne
  | cons x xs =>
    have hx := (h x (List.mem_cons_self x xs)).1
    cases xs with
    | nil => simpa [joinSep] using hx
    | cons y ys => simp [joinSep, hx]

theorem joinSep_sp_getLast {ids : List (List Char)} (hne : ids ≠ [])
    (h : ∀ i ∈ ids, tokenLike i) :
    ∃ d, (joinSep (str " ") ids).getLast? = some d ∧ isWS d = false := by
  induction ids with
  | nil => exact absurd rfl hne
  | cons x xs ih =>
    cases xs with
    | nil =>
      obtain ⟨hxne, hxws⟩ := h x (List.mem_cons_self x [])
      simp only [joinSep]
      cases hlast : x.getLast? with
      | none =>
        rw [List.getLast?_eq_none_iff] at hlast
        exact absurd hlast hxne
      | some d =>
        exact ⟨d, rfl, hxws d (List.mem_of_mem_getLast? hlast)⟩
    | cons y ys =>
      obtain ⟨d, hd, hdws⟩ := ih (by simp)
        (fun i hi => h i (List.mem_cons_of_mem x hi))
      have hJne : joinSep (str " ") (y :: ys) ≠ [] :=
        joinSep_sp_ne_nil (by simp) (fun i hi => h i (List.mem_cons_of_mem x hi))
      refine ⟨d, ?_, hdws⟩
      have harr : joinSep (str " ") (x :: y :: ys) =
          x ++ ' ' :: joinSep (str " ") (y :: ys) := by
        simp [joinSep, str]
      rw [harr, List.getLast?_append, getLast?_cons_of_ne_nil hJne, hd]
      rfl

theorem char_mem_joinSep_sp {ids : List (List Char)} {c : Char}
    (h : c ∈ joinSep (str " ") ids) : c = ' ' ∨ ∃ i ∈ ids, c ∈ i := by
  induction ids with
  | nil => simp [joinSep] at h
  | cons x xs ih =>
    cases xs with
    | nil =>
      simp only [joinSep] at h
      exact Or.inr ⟨x, List.mem_cons_self x [], h⟩
    | cons y ys =>
      have harr : joinSep (str " ") (x :: y :: ys) =
          x ++ ' ' :: joinSep (str " ") (y :: ys) := by
        simp [joinSep, str]
      rw [harr] at h
      rcases List.mem_append.1 h with h | h
      · exact Or.inr ⟨x, List.mem_cons_self x (y :: ys), h⟩
      · rcases List.mem_cons.1 h with h | h
        · exact Or.inl h
        · rcases ih h with h | ⟨i, hi, hci⟩
          · exact Or.inl h
          · exact Or.inr ⟨i, List.mem_cons_of_mem x hi, hci⟩

theorem strSCRsp_eq : str "SCR " = 'S' :: 'C' :: 'R' :: ' ' :: [] := rfl
theorem strSCR_eq : str "SCR" = ['S', 'C', 'R'] := rfl
theorem strsp_eq : str " " = [' '] := rfl
theorem strspq_eq : str " \"" = [' ', '"'] := rfl
theorem strqsp_eq : str "\" " = ['"', ' '] := rfl
theorem strq_eq : str "\"" = ['"'] := rfl

theorem scr_case_uu (tb : TerminationBehavior) (sec : ReaperActionSection)
    (cmd desc path : List Char)
    (hcmd_tok : tokenLike cmd) (hcmd_q : '"' ∉ cmd) (hcmd_h : '#' ∉ cmd)
    (hd_q : '"' ∉ desc) (hd_h : '#' ∉ desc)
    (hp_tok : tokenLike path) (hp_q : '"' ∉ path) (hp_h : '#' ∉ path) :
    ReaperEntry.from_line
      (str "SCR " ++ natToChars tb.toU32 ++ str " " ++ natToChars sec.as_u32 ++ str " " ++
        cmd ++ str " \"" ++ desc ++ str "\" " ++ path) =
      .ok (.Script { termination_behavior := tb
                     sec := sec
                     command_id := cmd
                     descr := desc
                     path := path }) := by
  set T := natToChars tb.toU32 with hTdef
  set S := natToChars sec.as_u32 with hSdef
  set L := str "SCR " ++ T ++ str " " ++ S ++ str " " ++ cmd ++ str " \"" ++ desc ++
    str "\" " ++ path with hLdef
  have hTt : tokenLike T := natToChars_token _
  have hSt : tokenLike S := natToChars_token _
  have hnh : '#' ∉ L := by
    rw [hLdef]
    exact not_mem_append' (not_mem_append' (not_mem_append' (not_mem_append'
      (not_mem_append' (not_mem_append' (not_mem_append' (not_mem_append'
        (not_mem_append' (by decide) (natToChars_not_hash _)) (by decide))
        (natToChars_not_hash _)) (by decide)) hcmd_h) (by decide)) hd_h)
      (by decide)) hp_h
  have hhead : L.head? = some 'S' := by
    rw [hLdef]
    rfl
  have htrim : trim L = L := by
    obtain ⟨d, hd, hdw⟩ := token_getLast hp_tok
    refine trim_eq_self_of_ends hhead (by decide) ?_ hdw
    rw [hLdef]
    rw [List.getLast?_append, hd]
    rfl
  have hLform : L = str "SCR" ++ ' ' :: (T ++ ' ' :: (S ++ ' ' ::
      (cmd ++ ' ' :: '"' :: (desc ++ '"' :: ' ' :: path)))) := by
    rw [hLdef]
    simp only [strSCRsp_eq, strSCR_eq, strsp_eq, strspq_eq, strqsp_eq,
      List.cons_append, List.append_assoc, List.nil_append, List.singleton_append]
  have htok : splitWhitespace L = str "SCR" :: T :: S :: cmd ::
      splitWhitespace ('"' :: (desc ++ '"' :: ' ' :: path)) := by
    rw [hLform,
      splitWhitespace_token_cons (show tokenLike (str "SCR") from ⟨by decide, by decide⟩)
        (by decide),
      splitWhitespace_token_cons hTt (by decide),
      splitWhitespace_token_cons hSt (by decide),
      splitWhitespace_token_cons hcmd_tok (by decide)]
  have hA0form : L = (str "SCR " ++ T ++ str " " ++ S ++ str " " ++ cmd ++ [' ']) ++
      '"' :: (desc ++ '"' :: (' ' :: path)) := by
    rw [hLdef]
    simp only [strSCRsp_eq, strsp_eq, strspq_eq, strqsp_eq,
      List.cons_append, List.append_assoc, List.nil_append, List.singleton_append]
  have hA0nq : '"' ∉ str "SCR " ++ T ++ str " " ++ S ++ str " " ++ cmd ++ [' '] :=
    not_mem_append' (not_mem_append' (not_mem_append' (not_mem_append'
      (not_mem_append' (not_mem_append' (by decide) (natToChars_not_quote _))
        (by decide)) (natToChars_not_quote _)) (by decide)) hcmd_q) (by decide)
  have hq : splitOnChar '"' L =
      [str "SCR " ++ T ++ str " " ++ S ++ str " " ++ cmd ++ [' '], desc, ' ' :: path] := by
    rw [hA0form, splitOnChar_append hA0nq, splitOnChar_append hd_q,
      splitOnChar_no_sep (by
        intro hmem
        rcases List.mem_cons.1 hmem with h | h
        · exact absurd h.symm (by decide)
        · exact hp_q h)]
  have hqmem : '"' ∈ L := by
    rw [hA0form]
    exact List.mem_append.2 (Or.inr (List.mem_cons_self _ _))
  have hpbq : splitWhitespace (str "SCR " ++ T ++ str " " ++ S ++ str " " ++ cmd ++ [' ']) =
      [str "SCR", T, S, cmd] := by
    have hform : str "SCR " ++ T ++ str " " ++ S ++ str " " ++ cmd ++ [' '] =
        str "SCR" ++ ' ' :: (T ++ ' ' :: (S ++ ' ' :: (cmd ++ ' ' :: []))) := by
      simp only [strSCRsp_eq, strSCR_eq, strsp_eq,
        List.cons_append, List.append_assoc, List.nil_append, List.singleton_append]
    rw [hform,
      splitWhitespace_token_cons (show tokenLike (str "SCR") from ⟨by decide, by decide⟩)
        (by decide),
      splitWhitespace_token_cons hTt (by decide),
      splitWhitespace_token_cons hSt (by decide),
      splitWhitespace_token_cons hcmd_tok (by decide)]
    rfl
  unfold ReaperEntry.from_line
  rw [splitHash_no_hash hnh]
  simp only []
  rw [htrim, htok]
  simp only []
  simp only [if_true]
  unfold ReaperEntry.parseScrTokens
  simp only [hTdef, hSdef, parseU32_natToChars (TerminationBehavior.toU32_lt tb),
    parseU32_natToChars (ReaperActionSection.as_u32_lt sec),
    TerminationBehavior.tryFromU32_toU32, ReaperActionSection.from_u32_as_u32]
  rw [← hTdef, ← hSdef, if_pos hqmem, hq]
  simp only [List.length_cons, List.length_nil, Nat.reduceAdd, Nat.reduceLT, reduceIte,
    List.getD, List.get?_eq_getElem?, List.getElem?_cons_zero, List.getElem?_cons_succ,
    Option.getD_some]
  rw [hpbq]
  simp only [List.length_cons, List.length_nil, Nat.reduceAdd, Nat.reduceEqDiff, reduceIte]
  rw [trim_sp_token hp_tok]
  rw [if_neg (show ¬(str "SCR" = str "KEY") by decide)]

theorem scr_case_uq (tb : TerminationBehavior) (sec : ReaperActionSection)
    (cmd desc path : List Char)
    (hcmd_tok : tokenLike cmd) (hcmd_q : '"' ∉ cmd) (hcmd_h : '#' ∉ cmd)
    (hd_q : '"' ∉ desc) (hd_h : '#' ∉ desc)
    (hp_q : '"' ∉ path) (hp_h : '#' ∉ path) :
    ReaperEntry.from_line
      (str "SCR " ++ natToChars tb.toU32 ++ str " " ++ natToChars sec.as_u32 ++ str " " ++
        cmd ++ str " \"" ++ desc ++ str "\" " ++ (str "\"" ++ path ++ str "\"")) =
      .ok (.Script { termination_behavior := tb
                     sec := sec
                     command_id := cmd
                     descr := desc
                     path := path }) := by
  set T := natToChars tb.toU32 with hTdef
  set S := natToChars sec.as_u32 with hSdef
  set L := str "SCR " ++ T ++ str " " ++ S ++ str " " ++ cmd ++ str " \"" ++ desc ++
    str "\" " ++ (str "\"" ++ path ++ str "\"") with hLdef
  have hTt : tokenLike T := natToChars_token _
  have hSt : tokenLike S := natToChars_token _
  have hnh : '#' ∉ L := by
    rw [hLdef]
    exact not_mem_append' (not_mem_append' (not_mem_append' (not_mem_append'
      (not_mem_append' (not_mem_append' (not_mem_append' (not_mem_append'
        (not_mem_append' (by decide) (natToChars_not_hash _)) (by decide))
        (natToChars_not_hash _)) (by decide)) hcmd_h) (by decide)) hd_h)
      (by decide)) (not_mem_append' (not_mem_append' (by decide) hp_h) (by decide))
  have hhead : L.head? = some 'S' := by
    rw [hLdef]
    rfl
  have hlastq : L.getLast? = some '"' := by
    rw [hLdef, List.getLast?_append]
    have h2 : (str "\"" ++ path ++ str "\"").getLast? = some '"' := by
      rw [show str "\"" ++ path ++ str "\"" = (str "\"" ++ path) ++ ['"'] from by
        simp [strq_eq], List.getLast?_concat]
    rw [h2]
    rfl
  have htrim : trim L = L := trim_eq_self_of_ends hhead (by decide) hlastq (by decide)
  have hLform : L = str "SCR" ++ ' ' :: (T ++ ' ' :: (S ++ ' ' ::
      (cmd ++ ' ' :: '"' :: (desc ++ '"' :: ' ' :: '"' :: (path ++ ['"']))))) := by
    rw [hLdef]
    simp only [strSCRsp_eq, strSCR_eq, strsp_eq, strspq_eq, strqsp_eq, strq_eq,
      List.cons_append, List.append_assoc, List.nil_append, List.singleton_append]
  have htok : splitWhitespace L = str "SCR" :: T :: S :: cmd ::
      splitWhitespace ('"' :: (desc ++ '"' :: ' ' :: '"' :: (path ++ ['"']))) := by
    rw [hLform,
      splitWhitespace_token_cons (show tokenLike (str "SCR") from ⟨by decide, by decide⟩)
        (by decide),
      splitWhitespace_token_cons hTt (by decide),
      splitWhitespace_token_cons hSt (by decide),
      splitWhitespace_token_cons hcmd_tok (by decide)]
  have hA0form : L = (str "SCR " ++ T ++ str " " ++ S ++ str " " ++ cmd ++ [' ']) ++
      '"' :: (desc ++ '"' :: ([' '] ++ '"' :: (path ++ '"' :: []))) := by
    rw [hLdef]
    simp only [strSCRsp_eq, strsp_eq, strspq_eq, strqsp_eq, strq_eq,
      List.cons_append, List.append_assoc, List.nil_append, List.singleton_append]
  have hA0nq : '"' ∉ str "SCR " ++ T ++ str " " ++ S ++ str " " ++ cmd ++ [' '] :=
    not_mem_append' (not_mem_append' (not_mem_append' (not_mem_append'
      (not_mem_append' (not_mem_append' (by decide) (natToChars_not_quote _))
        (by decide)) (natToChars_not_quote _)) (by decide)) hcmd_q) (by decide)
  have hq : splitOnChar '"' L =
      [str "SCR " ++ T ++ str " " ++ S ++ str " " ++ cmd ++ [' '], desc, [' '], path, []] := by
    rw [hA0form, splitOnChar_append hA0nq, splitOnChar_append hd_q,
      splitOnChar_append (show '"' ∉ [' '] by decide),
      splitOnChar_append hp_q]
    rfl
  have hqmem : '"' ∈ L := by
    rw [hA0form]
    exact List.mem_append.2 (Or.inr (List.mem_cons_self _ _))
  have hpbq : splitWhitespace (str "SCR " ++ T ++ str " " ++ S ++ str " " ++ cmd ++ [' ']) =
      [str "SCR", T, S, cmd] := by
    have hform : str "SCR " ++ T ++ str " " ++ S ++ str " " ++ cmd ++ [' '] =
        str "SCR" ++ ' ' :: (T ++ ' ' :: (S ++ ' ' :: (cmd ++ ' ' :: []))) := by
      simp only [strSCRsp_eq, strSCR_eq, strsp_eq,
        List.cons_append, List.append_assoc, List.nil_append, List.singleton_append]
    rw [hform,
      splitWhitespace_token_cons (show tokenLike (str "SCR") from ⟨by decide, by decide⟩)
        (by decide),
      splitWhitespace_token_cons hTt (by decide),
      splitWhitespace_token_cons hSt (by decide),
      splitWhitespace_token_cons hcmd_tok (by decide)]
    rfl
  unfold ReaperEntry.from_line
  rw [splitHash_no_hash hnh]
  simp only []
  rw [htrim, htok]
  simp only []
  simp only [if_true]
  unfold ReaperEntry.parseScrTokens
  simp only [hTdef, hSdef, parseU32_natToChars (TerminationBehavior.toU32_lt tb),
    parseU32_natToChars (ReaperActionSection.as_u32_lt sec),
    TerminationBehavior.tryFromU32_toU32, ReaperActionSection.from_u32_as_u32]
  rw [← hTdef, ← hSdef, if_pos hqmem, hq]
  simp only [List.length_cons, List.length_nil, Nat.reduceAdd, Nat.reduceLT, reduceIte,
    List.getD, List.get?_eq_getElem?, List.getElem?_cons_zero, List.getElem?_cons_succ,
    Option.getD_some]
  rw [hpbq]
  simp only [List.length_cons, List.length_nil, Nat.reduceAdd, Nat.reduceEqDiff, reduceIte]
  rw [if_neg (show ¬(str "SCR" = str "KEY") by decide)]

theorem scr_case_qu (tb : TerminationBehavior) (sec : ReaperActionSection)
    (cmd desc path : List Char)
    (hcmd_q : '"' ∉ cmd) (hcmd_h : '#' ∉ cmd)
    (hd_q : '"' ∉ desc) (hd_h : '#' ∉ desc)
    (hp_tok : tokenLike path) (hp_q : '"' ∉ path) (hp_h : '#' ∉ path) :
    ReaperEntry.from_line
      (str "SCR " ++ natToChars tb.toU32 ++ str " " ++ natToChars sec.as_u32 ++ str " " ++
        (str "\"" ++ cmd ++ str "\"") ++ str " \"" ++ desc ++ str "\" " ++ path) =
      .ok (.Script { termination_behavior := tb
                     sec := sec
                     command_id := cmd
                     descr := desc
                     path := path }) := by
  set T := natToChars tb.toU32 with hTdef
  set S := natToChars sec.as_u32 with hSdef
  set L := str "SCR " ++ T ++ str " " ++ S ++ str " " ++ (str "\"" ++ cmd ++ str "\"") ++
    str " \"" ++ desc ++ str "\" " ++ path with hLdef
  have hTt : tokenLike T := natToChars_token _
  have hSt : tokenLike S := natToChars_token _
  have hnh : '#' ∉ L := by
    rw [hLdef]
    exact not_mem_append' (not_mem_append' (not_mem_append' (not_mem_append'
      (not_mem_append' (not_mem_append' (not_mem_append' (not_mem_append'
        (not_mem_append' (by decide) (natToChars_not_hash _)) (by decide))
        (natToChars_not_hash _)) (by decide))
        (not_mem_append' (not_mem_append' (by decide) hcmd_h) (by decide)))
      (by decide)) hd_h) (by decide)) hp_h
  have hhead : L.head? = some 'S' := by
    rw [hLdef]
    rfl
  have htrim : trim L = L := by
    obtain ⟨d, hd, hdw⟩ := token_getLast hp_tok
    refine trim_eq_self_of_ends hhead (by decide) ?_ hdw
    rw [hLdef]
    rw [List.getLast?_append, hd]
    rfl
  have hLform : L = str "SCR" ++ ' ' :: (T ++ ' ' :: (S ++ ' ' ::
      '"' :: (cmd ++ '"' :: ' ' :: '"' :: (desc ++ '"' :: ' ' :: path)))) := by
    rw [hLdef]
    simp only [strSCRsp_eq, strSCR_eq, strsp_eq, strspq_eq, strqsp_eq, strq_eq,
      List.cons_append, List.append_assoc, List.nil_append, List.singleton_append]
  have htok : splitWhitespace L = str "SCR" :: T :: S ::
      splitWhitespace ('"' :: (cmd ++ '"' :: ' ' :: '"' :: (desc ++ '"' :: ' ' :: path))) := by
    rw [hLform,
      splitWhitespace_token_cons (show tokenLike (str "SCR") from ⟨by decide, by decide⟩)
        (by decide),
      splitWhitespace_token_cons hTt (by decide),
      splitWhitespace_token_cons hSt (by decide)]
  have hA0form : L = (str "SCR " ++ T ++ str " " ++ S ++ [' ']) ++
      '"' :: (cmd ++ '"' :: ([' '] ++ '"' :: (desc ++ '"' :: (' ' :: path)))) := by
    rw [hLdef]
    simp only [strSCRsp_eq, strsp_eq, strspq_eq, strqsp_eq, strq_eq,
      List.cons_append, List.append_assoc, List.nil_append, List.singleton_append]
  have hA0nq : '"' ∉ str "SCR " ++ T ++ str " " ++ S ++ [' '] :=
    not_mem_append' (not_mem_append' (not_mem_append'
      (not_mem_append' (by decide) (natToChars_not_quote _))
        (by decide)) (natToChars_not_quote _)) (by decide)
  have hq : splitOnChar '"' L =
      [str "SCR " ++ T ++ str " " ++ S ++ [' '], cmd, [' '], desc, ' ' :: path] := by
    rw [hA0form, splitOnChar_append hA0nq, splitOnChar_append hcmd_q,
      splitOnChar_append (show '"' ∉ [' '] by decide),
      splitOnChar_append hd_q,
      splitOnChar_no_sep (by
        intro hmem
        rcases List.mem_cons.1 hmem with h | h
        · exact absurd h.symm (by decide)
        · exact hp_q h)]
  have hqmem : '"' ∈ L := by
    rw [hA0form]
    exact List.mem_append.2 (Or.inr (List.mem_cons_self _ _))
  have hpbq : splitWhitespace (str "SCR " ++ T ++ str " " ++ S ++ [' ']) =
      [str "SCR", T, S] := by
    have hform : str "SCR " ++ T ++ str " " ++ S ++ [' '] =
        str "SCR" ++ ' ' :: (T ++ ' ' :: (S ++ ' ' :: [])) := by
      simp only [strSCRsp_eq, strSCR_eq, strsp_eq,
        List.cons_append, List.append_assoc, List.nil_append, List.singleton_append]
    rw [hform,
      splitWhitespace_token_cons (show tokenLike (str "SCR") from ⟨by decide, by decide⟩)
        (by decide),
      splitWhitespace_token_cons hTt (by decide),
      splitWhitespace_token_cons hSt (by decide)]
    rfl
  unfold ReaperEntry.from_line
  rw [splitHash_no_hash hnh]
  simp only []
  rw [htrim, htok]
  simp only []
  simp only [if_true]
  unfold ReaperEntry.parseScrTokens
  simp only [hTdef, hSdef, parseU32_natToChars (TerminationBehavior.toU32_lt tb),
    parseU32_natToChars (ReaperActionSection.as_u32_lt sec),
    TerminationBehavior.tryFromU32_toU32, ReaperActionSection.from_u32_as_u32]
  rw [← hTdef, ← hSdef, if_pos hqmem, hq]
  simp only [List.length_cons, List.length_nil, Nat.reduceAdd, Nat.reduceLT, reduceIte,
    List.getD, List.get?_eq_getElem?, List.getElem?_cons_zero, List.getElem?_cons_succ,
    Option.getD_some]
  rw [hpbq]
  simp only [List.length_cons, List.length_nil, Nat.reduceAdd, Nat.reduceEqDiff, reduceIte]
  rw [trim_sp_token hp_tok]
  rw [if_neg (show ¬(str "SCR" = str "KEY") by decide)]

theorem scr_case_qq (tb : TerminationBehavior) (sec : ReaperActionSection)
    (cmd desc path : List Char)
    (hcmd_q : '"' ∉ cmd) (hcmd_h : '#' ∉ cmd)
    (hd_q : '"' ∉ desc) (hd_h : '#' ∉ desc)
    (hp_q : '"' ∉ path) (hp_h : '#' ∉ path) :
    ReaperEntry.from_line
      (str "SCR " ++ natToChars tb.toU32 ++ str " " ++ natToChars sec.as_u32 ++ str " " ++
        (str "\"" ++ cmd ++ str "\"") ++ str " \"" ++ desc ++ str "\" " ++
        (str "\"" ++ path ++ str "\"")) =
      .ok (.Script { termination_behavior := tb
                     sec := sec
                     command_id := cmd
                     descr := desc
                     path := path }) := by
  set T := natToChars tb.toU32 with hTdef
  set S := natToChars sec.as_u32 with hSdef
  set L := str "SCR " ++ T ++ str " " ++ S ++ str " " ++ (str "\"" ++ cmd ++ str "\"") ++
    str " \"" ++ desc ++ str "\" " ++ (str "\"" ++ path ++ str "\"") with hLdef
  have hTt : tokenLike T := natToChars_token _
  have hSt : tokenLike S := natToChars_token _
  have hnh : '#' ∉ L := by
    rw [hLdef]
    exact not_mem_append' (not_mem_append' (not_mem_append' (not_mem_append'
      (not_mem_append' (not_mem_append' (not_mem_append' (not_mem_append'
        (not_mem_append' (by decide) (natToChars_not_hash _)) (by decide))
        (natToChars_not_hash _)) (by decide))
        (not_mem_append' (not_mem_append' (by decide) hcmd_h) (by decide)))
      (by decide)) hd_h) (by decide))
      (not_mem_append' (not_mem_append' (by decide) hp_h) (by decide))
  have hhead : L.head? = some 'S' := by
    rw [hLdef]
    rfl
  have hlastq : L.getLast? = some '"' := by
    rw [hLdef, List.getLast?_append]
    have h2 : (str "\"" ++ path ++ str "\"").getLast? = some '"' := by
      rw [show str "\"" ++ path ++ str "\"" = (str "\"" ++ path) ++ ['"'] from by
        simp [strq_eq], List.getLast?_concat]
    rw [h2]
    rfl
  have htrim : trim L = L := trim_eq_self_of_ends hhead (by decide) hlastq (by decide)
  have hLform : L = str "SCR" ++ ' ' :: (T ++ ' ' :: (S ++ ' ' ::
      '"' :: (cmd ++ '"' :: ' ' :: '"' :: (desc ++ '"' :: ' ' :: '"' ::
        (path ++ ['"']))))) := by
    rw [hLdef]
    simp only [strSCRsp_eq, strSCR_eq, strsp_eq, strspq_eq, strqsp_eq, strq_eq,
      List.cons_append, List.append_assoc, List.nil_append, List.singleton_append]
  have htok : splitWhitespace L = str "SCR" :: T :: S ::
      splitWhitespace ('"' :: (cmd ++ '"' :: ' ' :: '"' :: (desc ++ '"' :: ' ' :: '"' ::
        (path ++ ['"'])))) := by
    rw [hLform,
      splitWhitespace_token_cons (show tokenLike (str "SCR") from ⟨by decide, by decide⟩)
        (by decide),
      splitWhitespace_token_cons hTt (by decide),
      splitWhitespace_token_cons hSt (by decide)]
  have hA0form : L = (str "SCR " ++ T ++ str " " ++ S ++ [' ']) ++
      '"' :: (cmd ++ '"' :: ([' '] ++ '"' :: (desc ++ '"' :: ([' '] ++ '"' ::
        (path ++ '"' :: []))))) := by
    rw [hLdef]
    simp only [strSCRsp_eq, strsp_eq, strspq_eq, strqsp_eq, strq_eq,
      List.cons_append, List.append_assoc, List.nil_append, List.singleton_append]
  have hA0nq : '"' ∉ str "SCR " ++ T ++ str " " ++ S ++ [' '] :=
    not_mem_append' (not_mem_append' (not_mem_append'
      (not_mem_append' (by decide) (natToChars_not_quote _))
        (by decide)) (natToChars_not_quote _)) (by decide)
  have hq : splitOnChar '"' L =
      [str "SCR " ++ T ++ str " " ++ S ++ [' '], cmd, [' '], desc, [' '], path, []] := by
    rw [hA0form, splitOnChar_append hA0nq, splitOnChar_append hcmd_q,
      splitOnChar_append (show '"' ∉ [' '] by decide),
      splitOnChar_append hd_q,
      splitOnChar_append (show '"' ∉ [' '] by decide),
      splitOnChar_append hp_q]
    rfl
  have hqmem : '"' ∈ L := by
    rw [hA0form]
    exact List.mem_append.2 (Or.inr (List.mem_cons_self _ _))
  have hpbq : splitWhitespace (str "SCR " ++ T ++ str " " ++ S ++ [' ']) =
      [str "SCR", T, S] := by
    have hform : str "SCR " ++ T ++ str " " ++ S ++ [' '] =
        str "SCR" ++ ' ' :: (T ++ ' ' :: (S ++ ' ' :: [])) := by
      simp only [strSCRsp_eq, strSCR_eq, strsp_eq,
        List.cons_append, List.append_assoc, List.nil_append, List.singleton_append]
    rw [hform,
      splitWhitespace_token_cons (show tokenLike (str "SCR") from ⟨by decide, by decide⟩)
        (by decide),
      splitWhitespace_token_cons hTt (by decide),
      splitWhitespace_token_cons hSt (by decide)]
    rfl
  unfold ReaperEntry.from_line
  rw [splitHash_no_hash hnh]
  simp only []
  rw [htrim, htok]
  simp only []
  simp only [if_true]
  unfold ReaperEntry.parseScrTokens
  simp only [hTdef, hSdef, parseU32_natToChars (TerminationBehavior.toU32_lt tb),
    parseU32_natToChars (ReaperActionSection.as_u32_lt sec),
    TerminationBehavior.tryFromU32_toU32, ReaperActionSection.from_u32_as_u32]
  rw [← hTdef, ← hSdef, if_pos hqmem, hq]
  simp only [List.length_cons, List.length_nil, Nat.reduceAdd, Nat.reduceLT, reduceIte,
    List.getD, List.get?_eq_getElem?, List.getElem?_cons_zero, List.getElem?_cons_succ,
    Option.getD_some]
  rw [hpbq]
  simp only [List.length_cons, List.length_nil, Nat.reduceAdd, Nat.reduceEqDiff, reduceIte]
  rw [if_neg (show ¬(str "SCR" = str "KEY") by decide)]

theorem strACTsp_eq : str "ACT " = 'A' :: 'C' :: 'T' :: ' ' :: [] := rfl

theorem strACT_eq : str "ACT" = 'A' :: 'C' :: 'T' :: [] := rfl

theorem strqspq_eq : str "\" \"" = ['"', ' ', '"'] := rfl

theorem act_case_noids (af : ActionFlags) (sec : ReaperActionSection)
    (cmd desc : List Char)
    (haf : af.bits &&& 51 = af.bits)
    (hcmd_q : '"' ∉ cmd) (hcmd_h : '#' ∉ cmd)
    (hd_q : '"' ∉ desc) (hd_h : '#' ∉ desc) :
    ReaperEntry.from_line
      (str "ACT " ++ natToChars af.bits ++ str " " ++ natToChars sec.as_u32 ++
        str " \"" ++ cmd ++ str "\" \"" ++ desc ++ str "\"") =
      .ok (.Action { action_flags := af
                     sec := sec
                     command_id := cmd
                     descr := desc
                     action_ids := [] }) := by
  have hbits : af.bits < 4294967296 := by
    have h1 : af.bits ≤ 51 := haf ▸ Nat.and_le_right
    omega
  set F := natToChars af.bits with hFdef
  set S := natToChars sec.as_u32 with hSdef
  set L := str "ACT " ++ F ++ str " " ++ S ++ str " \"" ++ cmd ++ str "\" \"" ++ desc ++
    str "\"" with hLdef
  have hFt : tokenLike F := natToChars_token _
  have hSt : tokenLike S := natToChars_token _
  have hnh : '#' ∉ L := by
    rw [hLdef]
    exact not_mem_append' (not_mem_append' (not_mem_append' (not_mem_append'
      (not_mem_append' (not_mem_append' (not_mem_append' (not_mem_append'
        (by decide) (natToChars_not_hash _)) (by decide))
        (natToChars_not_hash _)) (by decide)) hcmd_h) (by decide)) hd_h) (by decide)
  have hhead : L.head? = some 'A' := by
    rw [hLdef]
    rfl
  have hlastq : L.getLast? = some '"' := by
    rw [hLdef,
      show str "ACT " ++ F ++ str " " ++ S ++ str " \"" ++ cmd ++ str "\" \"" ++ desc ++
          str "\"" =
        (str "ACT " ++ F ++ str " " ++ S ++ str " \"" ++ cmd ++ str "\" \"" ++ desc) ++ ['"']
        from by simp [strq_eq],
      List.getLast?_concat]
  have htrim : trim L = L := trim_eq_self_of_ends hhead (by decide) hlastq (by decide)
  have hLform : L = str "ACT" ++ ' ' :: (F ++ ' ' :: (S ++ ' ' ::
      '"' :: (cmd ++ '"' :: ' ' :: '"' :: (desc ++ ['"'])))) := by
    rw [hLdef]
    simp only [strACTsp_eq, strACT_eq, strsp_eq, strspq_eq, strqspq_eq, strq_eq,
      List.cons_append, List.append_assoc, List.nil_append, List.singleton_append]
  have htok : splitWhitespace L = str "ACT" :: F :: S ::
      splitWhitespace ('"' :: (cmd ++ '"' :: ' ' :: '"' :: (desc ++ ['"']))) := by
    rw [hLform,
      splitWhitespace_token_cons (show tokenLike (str "ACT") from ⟨by decide, by decide⟩)
        (by decide),
      splitWhitespace_token_cons hFt (by decide),
      splitWhitespace_token_cons hSt (by decide)]
  have hA0form : L = (str "ACT " ++ F ++ str " " ++ S ++ [' ']) ++
      '"' :: (cmd ++ '"' :: ([' '] ++ '"' :: (desc ++ '"' :: []))) := by
    rw [hLdef]
    simp only [strACTsp_eq, strsp_eq, strspq_eq, strqspq_eq, strq_eq,
      List.cons_append, List.append_assoc, List.nil_append, List.singleton_append]
  have hA0nq : '"' ∉ str "ACT " ++ F ++ str " " ++ S ++ [' '] :=
    not_mem_append' (not_mem_append' (not_mem_append'
      (not_mem_append' (by decide) (natToChars_not_quote _))
        (by decide)) (natToChars_not_quote _)) (by decide)
  have hq : splitOnChar '"' L =
      [str "ACT " ++ F ++ str " " ++ S ++ [' '], cmd, [' '], desc, []] := by
    rw [hA0form, splitOnChar_append hA0nq, splitOnChar_append hcmd_q,
      splitOnChar_append (show '"' ∉ [' '] by decide),
      splitOnChar_append hd_q]
    rfl
  have hfb : ActionFlags.from_bits_truncate af.bits = af := by
    simp only [ActionFlags.from_bits_truncate, ActionFlags.allBits, haf]
  unfold ReaperEntry.from_line
  rw [splitHash_no_hash hnh]
  simp only []
  rw [htrim, htok]
  simp only []
  simp only [if_true]
  unfold ReaperEntry.parseActTokens
  simp only [hFdef, hSdef, parseU32_natToChars hbits,
    parseU32_natToChars (ReaperActionSection.as_u32_lt sec),
    ReaperActionSection.from_u32_as_u32]
  rw [← hFdef, ← hSdef, hq]
  simp only [List.length_cons, List.length_nil, Nat.reduceAdd, Nat.reduceLT, reduceIte,
    List.getD, List.get?_eq_getElem?, List.getElem?_cons_zero, List.getElem?_cons_succ,
    Option.getD_some]
  rw [hfb]
  rw [if_neg (show ¬(str "ACT" = str "KEY") by decide),
    if_neg (show ¬(str "ACT" = str "SCR") by decide)]
  rfl

theorem act_case_ids (af : ActionFlags) (sec : ReaperActionSection)
    (cmd desc : List Char) (ids : List (List Char))
    (haf : af.bits &&& 51 = af.bits)
    (hcmd_q : '"' ∉ cmd) (hcmd_h : '#' ∉ cmd)
    (hd_q : '"' ∉ desc) (hd_h : '#' ∉ desc)
    (hids_ne : ids ≠ []) (hids_tok : ∀ i ∈ ids, tokenLike i)
    (hids_q : ∀ i ∈ ids, '"' ∉ i) (hids_h : ∀ i ∈ ids, '#' ∉ i) :
    ReaperEntry.from_line
      (str "ACT " ++ natToChars af.bits ++ str " " ++ natToChars sec.as_u32 ++
        str " \"" ++ cmd ++ str "\" \"" ++ desc ++ str "\" " ++ joinSep (str " ") ids) =
      .ok (.Action { action_flags := af
                     sec := sec
                     command_id := cmd
                     descr := desc
                     action_ids := ids }) := by
  have hbits : af.bits < 4294967296 := by
    have h1 : af.bits ≤ 51 := haf ▸ Nat.and_le_right
    omega
  set F := natToChars af.bits with hFdef
  set S := natToChars sec.as_u32 with hSdef
  set J := joinSep (str " ") ids with hJdef
  set L := str "ACT " ++ F ++ str " " ++ S ++ str " \"" ++ cmd ++ str "\" \"" ++ desc ++
    str "\" " ++ J with hLdef
  have hFt : tokenLike F := natToChars_token _
  have hSt : tokenLike S := natToChars_token _
  have hJh : '#' ∉ J := by
    intro hmem
    rcases char_mem_joinSep_sp hmem with h | ⟨i, hi, hci⟩
    · exact absurd h (by decide)
    · exact hids_h i hi hci
  have hJq : '"' ∉ J := by
    intro hmem
    rcases char_mem_joinSep_sp hmem with h | ⟨i, hi, hci⟩
    · exact absurd h (by decide)
    · exact hids_q i hi hci
  have hnh : '#' ∉ L := by
    rw [hLdef]
    exact not_mem_append' (not_mem_append' (not_mem_append' (not_mem_append'
      (not_mem_append' (not_mem_append' (not_mem_append' (not_mem_append'
        (not_mem_append'
        (by decide) (natToChars_not_hash _)) (by decide))
        (natToChars_not_hash _)) (by decide)) hcmd_h) (by decide)) hd_h) (by decide)) hJh
  have hhead : L.head? = some 'A' := by
    rw [hLdef]
    rfl
  have htrim : trim L = L := by
    obtain ⟨d, hd, hdw⟩ := joinSep_sp_getLast hids_ne hids_tok
    refine trim_eq_self_of_ends hhead (by decide) ?_ hdw
    rw [hLdef]
    rw [List.getLast?_append, hJdef, hd]
    rfl
  have hLform : L = str "ACT" ++ ' ' :: (F ++ ' ' :: (S ++ ' ' ::
      '"' :: (cmd ++ '"' :: ' ' :: '"' :: (desc ++ '"' :: ' ' :: J)))) := by
    rw [hLdef]
    simp only [strACTsp_eq, strACT_eq, strsp_eq, strspq_eq, strqspq_eq, strqsp_eq, strq_eq,
      List.cons_append, List.append_assoc, List.nil_append, List.singleton_append]
  have htok : splitWhitespace L = str "ACT" :: F :: S ::
      splitWhitespace ('"' :: (cmd ++ '"' :: ' ' :: '"' :: (desc ++ '"' :: ' ' :: J))) := by
    rw [hLform,
      splitWhitespace_token_cons (show tokenLike (str "ACT") from ⟨by decide, by decide⟩)
        (by decide),
      splitWhitespace_token_cons hFt (by decide),
      splitWhitespace_token_cons hSt (by decide)]
  have hA0form : L = (str "ACT " ++ F ++ str " " ++ S ++ [' ']) ++
      '"' :: (cmd ++ '"' :: ([' '] ++ '"' :: (desc ++ '"' :: (' ' :: J)))) := by
    rw [hLdef]
    simp only [strACTsp_eq, strsp_eq, strspq_eq, strqspq_eq, strqsp_eq, strq_eq,
      List.cons_append, List.append_assoc, List.nil_append, List.singleton_append]
  have hA0nq : '"' ∉ str "ACT " ++ F ++ str " " ++ S ++ [' '] :=
    not_mem_append' (not_mem_append' (not_mem_append'
      (not_mem_append' (by decide) (natToChars_not_quote _))
        (by decide)) (natToChars_not_quote _)) (by decide)
  have hq : splitOnChar '"' L =
      [str "ACT " ++ F ++ str " " ++ S ++ [' '], cmd, [' '], desc, ' ' :: J] := by
    rw [hA0form, splitOnChar_append hA0nq, splitOnChar_append hcmd_q,
      splitOnChar_append (show '"' ∉ [' '] by decide),
      splitOnChar_append hd_q,
      splitOnChar_no_sep (by
        intro hmem
        rcases List.mem_cons.1 hmem with h | h
        · exact absurd h.symm (by decide)
        · exact hJq h)]
  have hfb : ActionFlags.from_bits_truncate af.bits = af := by
    simp only [ActionFlags.from_bits_truncate, ActionFlags.allBits, haf]
  have hsplitJ : splitWhitespace (' ' :: J) = ids := by
    rw [splitWhitespace_ws_cons (by decide), hJdef, splitWhitespace_joinSep hids_tok]
  unfold ReaperEntry.from_line
  rw [splitHash_no_hash hnh]
  simp only []
  rw [htrim, htok]
  simp only []
  simp only [if_true]
  unfold ReaperEntry.parseActTokens
  simp only [hFdef, hSdef, parseU32_natToChars hbits,
    parseU32_natToChars (ReaperActionSection.as_u32_lt sec),
    ReaperActionSection.from_u32_as_u32]
  rw [← hFdef, ← hSdef, hq]
  simp only [List.length_cons, List.length_nil, Nat.reduceAdd, Nat.reduceLT, reduceIte,
    List.getD, List.get?_eq_getElem?, List.getElem?_cons_zero, List.getElem?_cons_succ,
    Option.getD_some]
  rw [hfb, hsplitJ]
  rw [if_neg (show ¬(str "ACT" = str "KEY") by decide),
    if_neg (show ¬(str "ACT" = str "SCR") by decide)]

/-- No occurrence of a given character, as a Boolean check. -/
def noChar (ch : Char) (s : List Char) : Bool := s.all (fun c => !(c == ch))

theorem noChar_not_mem {ch : Char} {s : List Char} (h : noChar ch s = true) : ch ∉ s := by
  intro hm
  have h1 := List.all_eq_true.1 h ch hm
  simp at h1

/-- Well-formedness of an `SCR`/`ACT` entry under which serialization is
exactly invertible: the escaped string fields carry no backslash, quote or
hash, the command of a script is nonempty and its path is quote- and
hash-free, action flags carry only defined bits, and action ids are
whitespace-free tokens. -/
def scrActWF : ReaperEntry → Bool
  | .Key _ => false
  | .Script s =>
    !s.command_id.isEmpty && noChar '"' s.command_id && noChar '#' s.command_id &&
      noChar '\\' s.command_id &&
      noChar '"' s.descr && noChar '#' s.descr && noChar '\\' s.descr &&
      noChar '"' s.path && noChar '#' s.path
  | .Action a =>
    (a.action_flags.bits &&& 51 == a.action_flags.bits) &&
      noChar '"' a.command_id && noChar '#' a.command_id && noChar '\\' a.command_id &&
      noChar '"' a.descr && noChar '#' a.descr && noChar '\\' a.descr &&
      a.action_ids.all (fun i => !i.isEmpty && i.all (fun c => !isWS c) &&
        noChar '"' i && noChar '#' i)

theorem not_isEmpty_ne_nil {s : List Char} (h : (!s.isEmpty) = true) : s ≠ [] := by
  cases s with
  | nil => exact absurd h (by decide)
  | cons c cs => exact fun hx => List.noConfusion hx


theorem scr_case_u0 (tb : TerminationBehavior) (sec : ReaperActionSection)
    (cmd desc : List Char)
    (hcmd_tok : tokenLike cmd) (hcmd_q : '"' ∉ cmd) (hcmd_h : '#' ∉ cmd)
    (hd_q : '"' ∉ desc) (hd_h : '#' ∉ desc) :
    ReaperEntry.from_line
      (str "SCR " ++ natToChars tb.toU32 ++ str " " ++ natToChars sec.as_u32 ++ str " " ++
        cmd ++ str " \"" ++ desc ++ str "\" ") =
      .ok (.Script { termination_behavior := tb
                     sec := sec
                     command_id := cmd
                     descr := desc
                     path := [] }) := by
  set T := natToChars tb.toU32 with hTdef
  set S := natToChars sec.as_u32 with hSdef
  set L := str "SCR " ++ T ++ str " " ++ S ++ str " " ++ cmd ++ str " \"" ++ desc ++
    str "\" " with hLdef
  set B := str "SCR " ++ T ++ str " " ++ S ++ str " " ++ cmd ++ str " \"" ++ desc ++
    str "\"" with hBdef
  have hTt : tokenLike T := natToChars_token _
  have hSt : tokenLike S := natToChars_token _
  have hnh : '#' ∉ L := by
    rw [hLdef]
    exact not_mem_append' (not_mem_append' (not_mem_append' (not_mem_append'
      (not_mem_append' (not_mem_append' (not_mem_append' (not_mem_append'
        (by decide) (natToChars_not_hash _)) (by decide))
        (natToChars_not_hash _)) (by decide)) hcmd_h) (by decide)) hd_h) (by decide)
  have hAB : L = B ++ [' '] := by
    rw [hLdef, hBdef]
    simp only [strqsp_eq, strq_eq, List.append_assoc, List.cons_append,
      List.singleton_append, List.nil_append]
  have htrim : trim L = B := by
    have h1 : trimStart L = L :=
      trimStart_eq_self_of_head (show L.head? = some 'S' from by rw [hLdef]; rfl) (by decide)
    have hBlast : B.getLast? = some '"' := by
      rw [hBdef,
        show str "SCR " ++ T ++ str " " ++ S ++ str " " ++ cmd ++ str " \"" ++ desc ++
            str "\"" =
          (str "SCR " ++ T ++ str " " ++ S ++ str " " ++ cmd ++ str " \"" ++ desc) ++ ['"']
          from by simp [strq_eq],
        List.getLast?_concat]
    rw [trim, h1, hAB, trimEnd_append_singleton_ws (by decide) B,
      trimEnd_eq_self_of_last hBlast (by decide)]
  have hBform : B = str "SCR" ++ ' ' :: (T ++ ' ' :: (S ++ ' ' ::
      (cmd ++ ' ' :: '"' :: (desc ++ ['"'])))) := by
    rw [hBdef]
    simp only [strSCRsp_eq, strSCR_eq, strsp_eq, strspq_eq, strq_eq,
      List.cons_append, List.append_assoc, List.nil_append, List.singleton_append]
  have htok : splitWhitespace B = str "SCR" :: T :: S :: cmd ::
      splitWhitespace ('"' :: (desc ++ ['"'])) := by
    rw [hBform,
      splitWhitespace_token_cons (show tokenLike (str "SCR") from ⟨by decide, by decide⟩)
        (by decide),
      splitWhitespace_token_cons hTt (by decide),
      splitWhitespace_token_cons hSt (by decide),
      splitWhitespace_token_cons hcmd_tok (by decide)]
  have hA0form : B = (str "SCR " ++ T ++ str " " ++ S ++ str " " ++ cmd ++ [' ']) ++
      '"' :: (desc ++ '"' :: []) := by
    rw [hBdef]
    simp only [strSCRsp_eq, strsp_eq, strspq_eq, strq_eq,
      List.cons_append, List.append_assoc, List.nil_append, List.singleton_append]
  have hA0nq : '"' ∉ str "SCR " ++ T ++ str " " ++ S ++ str " " ++ cmd ++ [' '] :=
    not_mem_append' (not_mem_append' (not_mem_append' (not_mem_append'
      (not_mem_append' (not_mem_append' (by decide) (natToChars_not_quote _))
        (by decide)) (natToChars_not_quote _)) (by decide)) hcmd_q) (by decide)
  have hq : splitOnChar '"' B =
      [str "SCR " ++ T ++ str " " ++ S ++ str " " ++ cmd ++ [' '], desc, []] := by
    rw [hA0form, splitOnChar_append hA0nq, splitOnChar_append hd_q]
    rfl
  have hqmem : '"' ∈ B := by
    rw [hA0form]
    exact List.mem_append.2 (Or.inr (List.mem_cons_self _ _))
  have hpbq : splitWhitespace (str "SCR " ++ T ++ str " " ++ S ++ str " " ++ cmd ++ [' ']) =
      [str "SCR", T, S, cmd] := by
    have hform : str "SCR " ++ T ++ str " " ++ S ++ str " " ++ cmd ++ [' '] =
        str "SCR" ++ ' ' :: (T ++ ' ' :: (S ++ ' ' :: (cmd ++ ' ' :: []))) := by
      simp only [strSCRsp_eq, strSCR_eq, strsp_eq,
        List.cons_append, List.append_assoc, List.nil_append, List.singleton_append]
    rw [hform,
      splitWhitespace_token_cons (show tokenLike (str "SCR") from ⟨by decide, by decide⟩)
        (by decide),
      splitWhitespace_token_cons hTt (by decide),
      splitWhitespace_token_cons hSt (by decide),
      splitWhitespace_token_cons hcmd_tok (by decide)]
    rfl
  unfold ReaperEntry.from_line
  rw [splitHash_no_hash hnh]
  simp only []
  rw [htrim, htok]
  simp only []
  simp only [if_true]
  unfold ReaperEntry.parseScrTokens
  simp only [hTdef, hSdef, parseU32_natToChars (TerminationBehavior.toU32_lt tb),
    parseU32_natToChars (ReaperActionSection.as_u32_lt sec),
    TerminationBehavior.tryFromU32_toU32, ReaperActionSection.from_u32_as_u32]
  rw [← hTdef, ← hSdef, if_pos hqmem, hq]
  simp only [List.length_cons, List.length_nil, Nat.reduceAdd, Nat.reduceLT, reduceIte,
    List.getD, List.get?_eq_getElem?, List.getElem?_cons_zero, List.getElem?_cons_succ,
    Option.getD_some]
  rw [hpbq]
  simp only [List.length_cons, List.length_nil, Nat.reduceAdd, Nat.reduceEqDiff, reduceIte]
  rw [if_neg (show ¬(str "SCR" = str "KEY") by decide)]
  rfl

theorem scr_case_q0 (tb : TerminationBehavior) (sec : ReaperActionSection)
    (cmd desc : List Char)
    (hcmd_q : '"' ∉ cmd) (hcmd_h : '#' ∉ cmd)
    (hd_q : '"' ∉ desc) (hd_h : '#' ∉ desc) :
    ReaperEntry.from_line
      (str "SCR " ++ natToChars tb.toU32 ++ str " " ++ natToChars sec.as_u32 ++ str " " ++
        (str "\"" ++ cmd ++ str "\"") ++ str " \"" ++ desc ++ str "\" ") =
      .ok (.Script { termination_behavior := tb
                     sec := sec
                     command_id := cmd
                     descr := desc
                     path := [] }) := by
  set T := natToChars tb.toU32 with hTdef
  set S := natToChars sec.as_u32 with hSdef
  set L := str "SCR " ++ T ++ str " " ++ S ++ str " " ++ (str "\"" ++ cmd ++ str "\"") ++
    str " \"" ++ desc ++ str "\" " with hLdef
  set B := str "SCR " ++ T ++ str " " ++ S ++ str " " ++ (str "\"" ++ cmd ++ str "\"") ++
    str " \"" ++ desc ++ str "\"" with hBdef
  have hTt : tokenLike T := natToChars_token _
  have hSt : tokenLike S := natToChars_token _
  have hnh : '#' ∉ L := by
    rw [hLdef]
    exact not_mem_append' (not_mem_append' (not_mem_append' (not_mem_append'
      (not_mem_append' (not_mem_append' (not_mem_append' (not_mem_append'
        (by decide) (natToChars_not_hash _)) (by decide))
        (natToChars_not_hash _)) (by decide))
        (not_mem_append' (not_mem_append' (by decide) hcmd_h) (by decide)))
      (by decide)) hd_h) (by decide)
  have hAB : L = B ++ [' '] := by
    rw [hLdef, hBdef]
    simp only [strqsp_eq, strq_eq, List.append_assoc, List.cons_append,
      List.singleton_append, List.nil_append]
  have htrim : trim L = B := by
    have h1 : trimStart L = L :=
      trimStart_eq_self_of_head (show L.head? = some 'S' from by rw [hLdef]; rfl) (by decide)
    have hBlast : B.getLast? = some '"' := by
      rw [hBdef,
        show str "SCR " ++ T ++ str " " ++ S ++ str " " ++ (str "\"" ++ cmd ++ str "\"") ++
            str " \"" ++ desc ++ str "\"" =
          (str "SCR " ++ T ++ str " " ++ S ++ str " " ++ (str "\"" ++ cmd ++ str "\"") ++
            str " \"" ++ desc) ++ ['"']
          from by simp [strq_eq],
        List.getLast?_concat]
    rw [trim, h1, hAB, trimEnd_append_singleton_ws (by decide) B,
      trimEnd_eq_self_of_last hBlast (by decide)]
  have hBform : B = str "SCR" ++ ' ' :: (T ++ ' ' :: (S ++ ' ' ::
      '"' :: (cmd ++ '"' :: ' ' :: '"' :: (desc ++ ['"'])))) := by
    rw [hBdef]
    simp only [strSCRsp_eq, strSCR_eq, strsp_eq, strspq_eq, strqsp_eq, strq_eq,
      List.cons_append, List.append_assoc, List.nil_append, List.singleton_append]
  have htok : splitWhitespace B = str "SCR" :: T :: S ::
      splitWhitespace ('"' :: (cmd ++ '"' :: ' ' :: '"' :: (desc ++ ['"']))) := by
    rw [hBform,
      splitWhitespace_token_cons (show tokenLike (str "SCR") from ⟨by decide, by decide⟩)
        (by decide),
      splitWhitespace_token_cons hTt (by decide),
      splitWhitespace_token_cons hSt (by decide)]
  have hA0form : B = (str "SCR " ++ T ++ str " " ++ S ++ [' ']) ++
      '"' :: (cmd ++ '"' :: ([' '] ++ '"' :: (desc ++ '"' :: []))) := by
    rw [hBdef]
    simp only [strSCRsp_eq, strsp_eq, strspq_eq, strqsp_eq, strq_eq,
      List.cons_append, List.append_assoc, List.nil_append, List.singleton_append]
  have hA0nq : '"' ∉ str "SCR " ++ T ++ str " " ++ S ++ [' '] :=
    not_mem_append' (not_mem_append' (not_mem_append'
      (not_mem_append' (by decide) (natToChars_not_quote _))
        (by decide)) (natToChars_not_quote _)) (by decide)
  have hq : splitOnChar '"' B =
      [str "SCR " ++ T ++ str " " ++ S ++ [' '], cmd, [' '], desc, []] := by
    rw [hA0form, splitOnChar_append hA0nq, splitOnChar_append hcmd_q,
      splitOnChar_append (show '"' ∉ [' '] by decide),
      splitOnChar_append hd_q]
    rfl
  have hqmem : '"' ∈ B := by
    rw [hA0form]
    exact List.mem_append.2 (Or.inr (List.mem_cons_self _ _))
  have hpbq : splitWhitespace (str "SCR " ++ T ++ str " " ++ S ++ [' ']) =
      [str "SCR", T, S] := by
    have hform : str "SCR " ++ T ++ str " " ++ S ++ [' '] =
        str "SCR" ++ ' ' :: (T ++ ' ' :: (S ++ ' ' :: [])) := by
      simp only [strSCRsp_eq, strSCR_eq, strsp_eq,
        List.cons_append, List.append_assoc, List.nil_append, List.singleton_append]
    rw [hform,
      splitWhitespace_token_cons (show tokenLike (str "SCR") from ⟨by decide, by decide⟩)
        (by decide),
      splitWhitespace_token_cons hTt (by decide),
      splitWhitespace_token_cons hSt (by decide)]
    rfl
  unfold ReaperEntry.from_line
  rw [splitHash_no_hash hnh]
  simp only []
  rw [htrim, htok]
  simp only []
  simp only [if_true]
  unfold ReaperEntry.parseScrTokens
  simp only [hTdef, hSdef, parseU32_natToChars (TerminationBehavior.toU32_lt tb),
    parseU32_natToChars (ReaperActionSection.as_u32_lt sec),
    TerminationBehavior.tryFromU32_toU32, ReaperActionSection.from_u32_as_u32]
  rw [← hTdef, ← hSdef, if_pos hqmem, hq]
  simp only [List.length_cons, List.length_nil, Nat.reduceAdd, Nat.reduceLT, reduceIte,
    List.getD, List.get?_eq_getElem?, List.getElem?_cons_zero, List.getElem?_cons_succ,
    Option.getD_some]
  rw [hpbq]
  simp only [List.length_cons, List.length_nil, Nat.reduceAdd, Nat.reduceEqDiff, reduceIte]
  rw [if_neg (show ¬(str "SCR" = str "KEY") by decide)]
  rfl

/-- C3, counterexample: the SCR line `SCR 4 0 cmd "a\b" p` parses, but the
parsed entry stores the description with its backslash verbatim, and
serialization escapes that backslash, so re-parsing the serialized line
yields a different description: the exact round trip fails. -/
theorem c3_counterexample :
    ReaperEntry.from_line (str "SCR 4 0 cmd \"a\\b\" p") =
      .ok (.Script { termination_behavior := .Prompt
                     sec := .Main
                     command_id := str "cmd"
                     descr := str "a\\b"
                     path := str "p" }) ∧
    ReaperEntry.from_line (ReaperEntry.to_line
        (.Script { termination_behavior := .Prompt
                   sec := .Main
                   command_id := str "cmd"
                   descr := str "a\\b"
                   path := str "p" })) ≠
      .ok (.Script { termination_behavior := .Prompt
                     sec := .Main
                     command_id := str "cmd"
                     descr := str "a\\b"
                     path := str "p" }) := by
  constructor
  · decide
  · decide

/-- C3 (amended): serialization followed by parsing is the identity on
well-formed `SCR`/`ACT` entries — command/description free of backslash,
quote and hash, script command nonempty, script path free of quote and
hash (it may be empty or carry whitespace), flags within the defined mask,
and action ids whitespace-free tokens.  The unconditional claim is false:
a successfully parsed entry may store a backslash (or an empty command)
verbatim, and serialization escapes backslashes without the parser ever
unescaping them. -/
theorem c3_scr_act_roundtrip_amended (e : ReaperEntry) (h : scrActWF e = true) :
    ReaperEntry.from_line (ReaperEntry.to_line e) = .ok e := by
  match e with
  | .Key k => exact absurd h (by simp [scrActWF])
  | .Script s =>
    obtain ⟨tb, sc, cmd, desc, path⟩ := s
    simp only [scrActWF, Bool.and_eq_true] at h
    obtain ⟨⟨⟨⟨⟨⟨⟨⟨hcne, hcq⟩, hch⟩, hcb⟩, hdq⟩, hdh⟩, hdb⟩, hpq⟩, hph⟩ := h
    have hcq' := noChar_not_mem hcq
    have hch' := noChar_not_mem hch
    have hcb' := noChar_not_mem hcb
    have hdq' := noChar_not_mem hdq
    have hdh' := noChar_not_mem hdh
    have hdb' := noChar_not_mem hdb
    have hpq' := noChar_not_mem hpq
    have hph' := noChar_not_mem hph
    have hcne' := not_isEmpty_ne_nil hcne
    simp only [ReaperEntry.to_line, escape_field_eq_self hcb' hcq',
      escape_field_eq_self hdb' hdq']
    by_cases hcws : cmd.any (fun c => isWS c) = true
    · rw [if_pos hcws]
      cases path with
      | nil =>
        rw [if_neg (show ¬((List.any [] fun c => isWS c) = true) by decide),
          List.append_nil]
        exact scr_case_q0 tb sc cmd desc hcq' hch' hdq' hdh'
      | cons p0 ps =>
        by_cases hpws : (p0 :: ps).any (fun c => isWS c) = true
        · rw [if_pos hpws]
          exact scr_case_qq tb sc cmd desc (p0 :: ps) hcq' hch' hdq' hdh' hpq' hph'
        · rw [if_neg hpws]
          have hptok : tokenLike (p0 :: ps) := by
            refine ⟨fun hx => List.noConfusion hx, fun c hc => ?_⟩
            by_contra hx
            exact hpws (List.any_eq_true.2 ⟨c, hc, by simpa using hx⟩)
          exact scr_case_qu tb sc cmd desc (p0 :: ps) hcq' hch' hdq' hdh' hptok hpq' hph'
    · rw [if_neg hcws]
      have hctok : tokenLike cmd := by
        refine ⟨hcne', fun c hc => ?_⟩
        by_contra hx
        exact hcws (List.any_eq_true.2 ⟨c, hc, by simpa using hx⟩)
      cases path with
      | nil =>
        rw [if_neg (show ¬((List.any [] fun c => isWS c) = true) by decide),
          List.append_nil]
        exact scr_case_u0 tb sc cmd desc hctok hcq' hch' hdq' hdh'
      | cons p0 ps =>
        by_cases hpws : (p0 :: ps).any (fun c => isWS c) = true
        · rw [if_pos hpws]
          exact scr_case_uq tb sc cmd desc (p0 :: ps) hctok hcq' hch' hdq' hdh' hpq' hph'
        · rw [if_neg hpws]
          have hptok : tokenLike (p0 :: ps) := by
            refine ⟨fun hx => List.noConfusion hx, fun c hc => ?_⟩
            by_contra hx
            exact hpws (List.any_eq_true.2 ⟨c, hc, by simpa using hx⟩)
          exact scr_case_uu tb sc cmd desc (p0 :: ps) hctok hcq' hch' hdq' hdh' hptok hpq' hph'
  | .Action a =>
    simp only [scrActWF, Bool.and_eq_true] at h
    obtain ⟨⟨⟨⟨⟨⟨⟨haf, hcq⟩, hch⟩, hcb⟩, hdq⟩, hdh⟩, hdb⟩, hids⟩ := h
    have haf' : a.action_flags.bits &&& 51 = a.action_flags.bits := beq_iff_eq.mp haf
    have hcq' := noChar_not_mem hcq
    have hch' := noChar_not_mem hch
    have hcb' := noChar_not_mem hcb
    have hdq' := noChar_not_mem hdq
    have hdh' := noChar_not_mem hdh
    have hdb' := noChar_not_mem hdb
    have hids' := List.all_eq_true.1 hids
    have hids_tok : ∀ i ∈ a.action_ids, tokenLike i := by
      intro i hi
      have h1 := hids' i hi
      simp only [Bool.and_eq_true] at h1
      refine ⟨not_isEmpty_ne_nil h1.1.1.1, fun c hc => ?_⟩
      have h2 := List.all_eq_true.1 h1.1.1.2 c hc
      simpa using h2
    have hids_q : ∀ i ∈ a.action_ids, '"' ∉ i := by
      intro i hi
      have h1 := hids' i hi
      simp only [Bool.and_eq_true] at h1
      exact noChar_not_mem h1.1.2
    have hids_h : ∀ i ∈ a.action_ids, '#' ∉ i := by
      intro i hi
      have h1 := hids' i hi
      simp only [Bool.and_eq_true] at h1
      exact noChar_not_mem h1.2
    simp only [ReaperEntry.to_line, escape_field_eq_self hcb' hcq',
      escape_field_eq_self hdb' hdq']
    cases hia : a.action_ids with
    | nil =>
      rw [if_pos (show joinSep (str " ") [] = [] from rfl)]
      have := act_case_noids a.action_flags a.sec a.command_id a.descr haf'
        hcq' hch' hdq' hdh'
      rw [this]
      rw [← hia]
    | cons x xs =>
      rw [if_neg (joinSep_sp_ne_nil (by simp) (hia ▸ hids_tok))]
      exact hia ▸ act_case_ids a.action_flags a.sec a.command_id a.descr a.action_ids
        haf' hcq' hch' hdq' hdh' (by rw [hia]; simp) hids_tok hids_q hids_h

/-- Witness for the amended C3 round trip at a concrete script entry. -/
theorem c3_scr_act_roundtrip_amended_witness :
    scrActWF (.Script { termination_behavior := .Prompt
                        sec := .Main
                        command_id := str "cmd"
                        descr := str "hello world"
                        path := str "x.lua" }) = true ∧
    ReaperEntry.from_line (ReaperEntry.to_line
        (.Script { termination_behavior := .Prompt
                   sec := .Main
                   command_id := str "cmd"
                   descr := str "hello world"
                   path := str "x.lua" })) =
      .ok (.Script { termination_behavior := .Prompt
                     sec := .Main
                     command_id := str "cmd"
                     descr := str "hello world"
                     path := str "x.lua" }) :=
  ⟨by decide, c3_scr_act_roundtrip_amended _ (by decide)⟩

theorem strKEYsp_eq : str "KEY " = 'K' :: 'E' :: 'Y' :: ' ' :: [] := rfl

theorem strKEY_eq : str "KEY" = ['K', 'E', 'Y'] := rfl

theorem mem_of_mem_trimEnd {l : List Char} {c : Char} (h : c ∈ trimEnd l) : c ∈ l := by
  simp only [trimEnd, List.mem_reverse] at h
  exact List.mem_reverse.1 (mem_of_mem_dropWhileWS h)

theorem mem_of_mem_trim {l : List Char} {c : Char} (h : c ∈ trim l) : c ∈ l :=
  mem_of_mem_dropWhileWS (mem_of_mem_trimEnd h)

theorem splitWSAux_mem :
    ∀ (l acc t : List Char), (∀ c ∈ acc, isWS c = false) → t ∈ splitWSAux l acc →
      t ≠ [] ∧ ∀ c ∈ t, isWS c = false ∧ (c ∈ l ∨ c ∈ acc) := by
  intro l
  induction l with
  | nil =>
    intro acc t hacc ht
    rw [splitWSAux_nil] at ht
    by_cases h : acc = []
    · rw [if_pos h] at ht
      simp at ht
    · rw [if_neg h] at ht
      rcases List.mem_singleton.1 ht with rfl
      refine ⟨by simpa using h, fun c hc => ?_⟩
      have hc' : c ∈ acc := List.mem_reverse.1 hc
      exact ⟨hacc c hc', Or.inr hc'⟩
  | cons a cs ih =>
    intro acc t hacc ht
    by_cases ha : isWS a = true
    · rw [splitWSAux_ws_cons ha] at ht
      rcases List.mem_append.1 ht with h1 | h1
      · by_cases h : acc = []
        · rw [if_pos h] at h1
          simp at h1
        · rw [if_neg h] at h1
          rcases List.mem_singleton.1 h1 with rfl
          refine ⟨by simpa using h, fun c hc => ?_⟩
          have hc' : c ∈ acc := List.mem_reverse.1 hc
          exact ⟨hacc c hc', Or.inr hc'⟩
      · obtain ⟨hne, hall⟩ := ih [] t (by simp) h1
        refine ⟨hne, fun c hc => ?_⟩
        obtain ⟨hw, hm⟩ := hall c hc
        rcases hm with hm | hm
        · exact ⟨hw, Or.inl (List.mem_cons_of_mem a hm)⟩
        · simp at hm
    · have ha' : isWS a = false := by simpa using ha
      rw [show splitWSAux (a :: cs) acc = splitWSAux cs (a :: acc) from by
        simp only [splitWSAux, ha', Bool.false_eq_true, if_false]] at ht
      have hacc' : ∀ c ∈ a :: acc, isWS c = false := by
        intro c hc
        rcases List.mem_cons.1 hc with rfl | hc
        · exact ha'
        · exact hacc c hc
      obtain ⟨hne, hall⟩ := ih (a :: acc) t hacc' ht
      refine ⟨hne, fun c hc => ?_⟩
      obtain ⟨hw, hm⟩ := hall c hc
      rcases hm with hm | hm
      · exact ⟨hw, Or.inl (List.mem_cons_of_mem a hm)⟩
      · rcases List.mem_cons.1 hm with rfl | hm
        · exact ⟨hw, Or.inl (List.mem_cons_self c cs)⟩
        · exact ⟨hw, Or.inr hm⟩

theorem mem_splitWhitespace_props {l t : List Char} (h : t ∈ splitWhitespace l) :
    tokenLike t ∧ ∀ c ∈ t, c ∈ l := by
  obtain ⟨hne, hall⟩ := splitWSAux_mem l [] t (by simp) h
  refine ⟨⟨hne, fun c hc => (hall c hc).1⟩, fun c hc => ?_⟩
  rcases (hall c hc).2 with hm | hm
  · exact hm
  · simp at hm

theorem splitWhitespace_single {t : List Char} (ht : tokenLike t) :
    splitWhitespace t = [t] := by
  obtain ⟨hne, hws⟩ := ht
  have h1 := splitWSAux_token t hws [] []
  rw [List.append_nil] at h1
  rw [splitWhitespace, h1, splitWSAux_nil]
  rw [if_neg (by simpa using hne)]
  simp

theorem trimEnd_append_sp (m : List Char) : trimEnd (m ++ [' ']) = trimEnd m := by
  simp only [trimEnd, List.reverse_append]
  rw [show ([' '] : List Char).reverse ++ m.reverse = ' ' :: m.reverse from by simp,
    List.dropWhile_cons_of_pos (by decide)]

theorem key_reparse (m : Modifiers) (kv : Nat) (cmd : List Char)
    (sec : ReaperActionSection) (crest : List Char) (ki : KeyInputType)
    (hm : Modifiers.try_from_reaper_code (Modifiers.reaper_code m) = some m)
    (hkv : kv < 65536)
    (hcmd_tok : tokenLike cmd) (hcmd_h : '#' ∉ cmd)
    (hki : (if m.is_special_input then
        (.ok (.Special (SpecialInput.from_key_code kv)) : Except ParseError KeyInputType)
      else
        match KeyCode.from_u16 kv with
        | some kc => .ok (.Regular kc)
        | none => .error (.InvalidKeyCode kv)) = .ok ki) :
    ReaperEntry.from_line (str "KEY " ++ natToChars (Modifiers.reaper_code m) ++ str " " ++
        natToChars kv ++ str " " ++ cmd ++ str " " ++ natToChars sec.as_u32 ++ str " " ++
        ('#' :: crest)) =
      .ok (.Key { modifiers := m
                  key_input := ki
                  command_id := cmd
                  sec := sec
                  comment := Comment.from_line ('#' :: crest) }) := by
  set M := natToChars (Modifiers.reaper_code m) with hMdef
  set V := natToChars kv with hVdef
  set S := natToChars sec.as_u32 with hSdef
  have hMt : tokenLike M := natToChars_token _
  have hVt : tokenLike V := natToChars_token _
  have hSt : tokenLike S := natToChars_token _
  set A := str "KEY " ++ M ++ str " " ++ V ++ str " " ++ cmd ++ str " " ++ S ++ str " "
    with hAdef
  have hAnh : '#' ∉ A := by
    rw [hAdef]
    exact not_mem_append' (not_mem_append' (not_mem_append' (not_mem_append'
      (not_mem_append' (not_mem_append' (not_mem_append' (not_mem_append'
        (by decide) (natToChars_not_hash _)) (by decide)) (natToChars_not_hash _))
        (by decide)) hcmd_h) (by decide)) (natToChars_not_hash _)) (by decide)
  have hsplit : splitHash (A ++ '#' :: crest) = (A, some crest) := splitHash_append hAnh crest
  set B := str "KEY " ++ M ++ str " " ++ V ++ str " " ++ cmd ++ str " " ++ S with hBdef
  have hAB : A = B ++ [' '] := by
    rw [hAdef, hBdef, strsp_eq]
  have htrim : trim A = B := by
    obtain ⟨d, hd, hdw⟩ := token_getLast hSt
    have hBlast : B.getLast? = some d := by
      rw [hBdef, List.getLast?_append, hd]
      rfl
    have h1 : trimStart A = A :=
      trimStart_eq_self_of_head (show A.head? = some 'K' from by rw [hAB, hBdef]; rfl)
        (by decide)
    rw [trim, h1, hAB, trimEnd_append_sp, trimEnd_eq_self_of_last hBlast hdw]
  have hBform : B = str "KEY" ++ ' ' :: (M ++ ' ' :: (V ++ ' ' :: (cmd ++ ' ' :: S))) := by
    rw [hBdef]
    simp only [strKEYsp_eq, strKEY_eq, strsp_eq,
      List.cons_append, List.append_assoc, List.nil_append, List.singleton_append]
  have htok : splitWhitespace B = [str "KEY", M, V, cmd, S] := by
    rw [hBform,
      splitWhitespace_token_cons (show tokenLike (str "KEY") from ⟨by decide, by decide⟩)
        (by decide),
      splitWhitespace_token_cons hMt (by decide),
      splitWhitespace_token_cons hVt (by decide),
      splitWhitespace_token_cons hcmd_tok (by decide),
      splitWhitespace_single hSt]
  unfold ReaperEntry.from_line
  rw [hsplit]
  simp only []
  rw [htrim, htok]
  simp only []
  simp only [if_true]
  unfold ReaperEntry.parseKeyTokens
  simp only [hMdef, hVdef, hSdef, parseU8_natToChars (reaper_code_lt m), hm,
    parseU16_natToChars hkv, hki,
    parseU32_natToChars (ReaperActionSection.as_u32_lt sec),
    ReaperActionSection.from_u32_as_u32]
  simp only [Option.map_some', Option.some_bind]

theorem comment_to_line_shape (c : Comment) :
    ∃ tail, Comment.to_line c = '#' :: ' ' :: tail ∧ ':' ∈ tail := by
  refine ⟨joinSep (str " : ") ([c.section_label, c.key_combination] ++
    (match c.behavior_flag with | some b => [b] | none => []) ++
    (match c.action_description with | some a => [a] | none => [])), ?_, ?_⟩
  · rfl
  · exact List.mem_append.2 (Or.inl (List.mem_append.2 (Or.inr (by decide))))

/-- C4 (amended): a `KEY` line with no comment part that parses into `k`
round-trips functionally — provided the sentinel flag, when present, is the
whole modifier set (`bits = 128`): serializing `k` and re-parsing succeeds
and preserves modifiers, key input, command id and section, with the
comment now synthesized and parsed back as `Some`.  Without the proviso
the claim fails: a mixed byte such as 133 decodes to sentinel+Shift, but
serialization collapses every sentinel-carrying set to byte 255, which
re-parses as the bare sentinel set. -/
theorem c4_key_functional_roundtrip_amended {line : List Char} {k : KeyEntry}
    (h : ReaperEntry.from_line line = .ok (.Key k))
    (hnc : (splitHash line).2 = none)
    (hsent : k.modifiers.is_special_input = true → k.modifiers.bits = 128) :
    ∃ k', ReaperEntry.from_line (ReaperEntry.to_line (.Key k)) = .ok (.Key k') ∧
      k'.modifiers = k.modifiers ∧ k'.key_input = k.key_input ∧
      k'.command_id = k.command_id ∧ k'.sec = k.sec ∧ k'.comment.isSome = true := by
  obtain ⟨rest0, hsw, hpk⟩ := from_line_key_inversion h
  obtain ⟨t1, t2, t3, t4, rest', B, code, htoks, hB, hM, hC, hsp, hreg, hcmd, hsecx, hcom⟩ :=
    parseKeyTokens_inversion hpk
  have hkcnone : k.comment = none := by
    rw [hcom, hnc]
    rfl
  have hmod_rt : Modifiers.try_from_reaper_code (Modifiers.reaper_code k.modifiers) =
      some k.modifiers := reaper_roundtrip (try_from_valid hM) hsent
  have ht3mem : t3 ∈ splitWhitespace (trim (splitHash line).1) := by
    rw [hsw, htoks]
    exact List.mem_cons_of_mem _ (List.mem_cons_of_mem _
      (List.mem_cons_of_mem _ (List.mem_cons_self _ _)))
  have hprops := mem_splitWhitespace_props ht3mem
  have hcmd_tok : tokenLike k.command_id := hcmd ▸ hprops.1
  have hcmd_h : '#' ∉ k.command_id := hcmd ▸ fun hx =>
    splitHash_fst_no_hash line (mem_of_mem_trim (hprops.2 _ hx))
  have hcode_lt : code < 65536 := parseUInt_lt_bound hC
  obtain ⟨ctail, hct, hcolon⟩ := comment_to_line_shape (KeyEntry.generate_comment k)
  have hsome : (Comment.from_line ('#' :: ' ' :: ctail)).isSome = true :=
    comment_from_line_isSome (List.mem_cons_of_mem _ hcolon)
  cases hspec : k.modifiers.is_special_input with
  | true =>
    have hki0 := hsp hspec
    have hkv : SpecialInput.to_key_code (SpecialInput.from_key_code code) < 65536 :=
      special_to_lt hcode_lt
    have hki' : (if k.modifiers.is_special_input then
        (.ok (.Special (SpecialInput.from_key_code
          (SpecialInput.to_key_code (SpecialInput.from_key_code code)))) :
            Except ParseError KeyInputType)
      else
        match KeyCode.from_u16 (SpecialInput.to_key_code (SpecialInput.from_key_code code)) with
        | some kc => .ok (.Regular kc)
        | none => .error (.InvalidKeyCode
            (SpecialInput.to_key_code (SpecialInput.from_key_code code)))) =
        .ok (.Special (SpecialInput.from_key_code code)) := by
      rw [if_pos hspec, special_from_to_from]
    simp only [ReaperEntry.to_line, hkcnone, hki0]
    rw [hct]
    refine ⟨_, key_reparse k.modifiers
      (SpecialInput.to_key_code (SpecialInput.from_key_code code)) k.command_id k.sec
      (' ' :: ctail) (.Special (SpecialInput.from_key_code code))
      hmod_rt hkv hcmd_tok hcmd_h hki', rfl, rfl, rfl, rfl, hsome⟩
  | false =>
    obtain ⟨kc, hkc1, hki0⟩ := hreg hspec
    have hkv : KeyCode.as_u8 kc < 65536 := by
      have := keyCodeTable_lt kc.property
      simp only [KeyCode.as_u8]
      omega
    have hki' : (if k.modifiers.is_special_input then
        (.ok (.Special (SpecialInput.from_key_code (KeyCode.as_u8 kc))) :
            Except ParseError KeyInputType)
      else
        match KeyCode.from_u16 (KeyCode.as_u8 kc) with
        | some kc2 => .ok (.Regular kc2)
        | none => .error (.InvalidKeyCode (KeyCode.as_u8 kc))) =
        .ok (.Regular kc) := by
      rw [if_neg (by simp [hspec]), KeyCode.from_u16_as_u8]
    simp only [ReaperEntry.to_line, hkcnone, hki0]
    rw [hct]
    refine ⟨_, key_reparse k.modifiers (KeyCode.as_u8 kc) k.command_id k.sec
      (' ' :: ctail) (.Regular kc)
      hmod_rt hkv hcmd_tok hcmd_h hki', rfl, rfl, rfl, rfl, hsome⟩

/-- The modifiers of a parsed `KEY` entry, when the parse succeeded. -/
def keyModifiersOf : Except ParseError ReaperEntry → Option Modifiers
  | .ok (.Key k) => some k.modifiers
  | _ => none

/-- C4, counterexample: the comment-free line `KEY 133 248 40044 0` parses
(133 - 1 = 132 = SPECIAL_INPUT + SHIFT), but to_line collapses its modifier
byte to 255, so re-parsing the serialized line yields the bare sentinel set
`128` instead of `132`: the modifiers are not preserved. -/
theorem c4_counterexample :
    ReaperEntry.from_line (str "KEY 133 248 40044 0") =
      .ok (.Key { modifiers := ⟨132⟩
                  key_input := .Special .Mousewheel
                  command_id := str "40044"
                  sec := .Main
                  comment := none }) ∧
    (splitHash (str "KEY 133 248 40044 0")).2 = none ∧
    keyModifiersOf (ReaperEntry.from_line (ReaperEntry.to_line
      (.Key { modifiers := ⟨132⟩
              key_input := .Special .Mousewheel
              command_id := str "40044"
              sec := .Main
              comment := none }))) = some ⟨128⟩ ∧
    (⟨128⟩ : Modifiers) ≠ ⟨132⟩ := by
  refine ⟨by decide, by decide, by decide, by decide⟩

/-- Witness for the amended C4 round trip at the pure-sentinel line
`KEY 255 248 40044 0`. -/
theorem c4_key_functional_roundtrip_amended_witness :
    ∃ k', ReaperEntry.from_line (ReaperEntry.to_line
        (.Key { modifiers := ⟨128⟩
                key_input := .Special .Mousewheel
                command_id := str "40044"
                sec := .Main
                comment := none })) = .ok (.Key k') ∧
      k'.modifiers = Modifiers.mk 128 ∧ k'.key_input = .Special .Mousewheel ∧
      k'.command_id = str "40044" ∧ k'.sec = .Main ∧ k'.comment.isSome = true :=
  @c4_key_functional_roundtrip_amended (str "KEY 255 248 40044 0")
    { modifiers := ⟨128⟩
      key_input := .Special .Mousewheel
      command_id := str "40044"
      sec := .Main
      comment := none }
    (by decide) (by decide) (by decide)
